import Mathlib

/-!
# Day 11: the fuel-cell grid (`src/day11/day11.c`)

A shallow embedding of the C program.  The C type `int` is modelled by `Int`
with every `+`, `-` and `*` reduced into the signed 32-bit range by `wrap32`;
C's `/` and `%` truncate towards zero and are `Int.tdiv` and `Int.tmod`.
The global `int cells[301][301]` is a function from (row, column) to its
content, read through a bounds-checked accessor.

The searches are characterised by loop invariants (`Inv1`, `Inv2`,
`TraceInv`).  The fixtures of the two parts are settled by a check on a packed
representation of the grid: the hundreds digits of all cells are the 21-bit
lanes of one natural number, its product with an `s`-by-`s` kernel holds the
digit sums of all `s`-by-`s` squares, and one guard-bit test per size compares
every sum with the bound.
-/

namespace Day11

/-! ## Machine integers -/

/-- Reduction of an integer into the signed 32-bit range `[-2^31, 2^31)`. -/
def wrap32 (n : Int) : Int :=
  (n + 2147483648) % 4294967296 - 2147483648

/-! ## `cell` -/

/-- Source `cell` (lines 6-11):
`rackId = x + 10; startLevel = rackId * y; value = (startLevel + serial) * rackId;
return (value / 100) % 10 - 5;` on 32-bit `int`. -/
def cell (x y serial : Int) : Int :=
  let rackId := wrap32 (x + 10)
  let startLevel := wrap32 (rackId * y)
  let value := wrap32 (wrap32 (startLevel + serial) * rackId)
  wrap32 (Int.tmod (Int.tdiv value 100) 10 - 5)

/-- The cell value in the words of the specification: the hundreds digit of
`value = (rackId * y + seed) * rackId` with `rackId = x + 10`, minus five, in
exact integers with floor division and non-negative remainder. -/
def cellSpec (x y seed : Int) : Int :=
  (((x + 10) * y + seed) * (x + 10)) / 100 % 10 - 5

/-! ## The grid -/

/-- Contents of the global `int cells[301][301]`: `g y x` is `cells[y][x]`
(row first).  Only indices `0..300` denote storage. -/
abbrev Grid := Int → Int → Int

/-- The zero-initialised global array at program start. -/
def Grid.zero : Grid := fun _ _ => 0

/-- Reading `cells[y][x]`: `none` when an index is outside `0..300`. -/
def Grid.read (g : Grid) (y x : Int) : Option Int :=
  if 0 ≤ y ∧ y ≤ 300 ∧ 0 ≤ x ∧ x ≤ 300 then some (g y x) else none

/-- The assignment `cells[y][x] = v`. -/
def Grid.write (g : Grid) (y x v : Int) : Grid :=
  fun y1 x1 => if y1 = y ∧ x1 = x then v else g y1 x1

/-! ## Counted loops -/

/-- The loop `for (i = lo; ...; ++i) s = body(i, s)` run for `n` iterations
starting at `i`. -/
def forUp {σ : Type} (body : Int → σ → σ) : Nat → Int → σ → σ
  | 0, _, s => s
  | n + 1, i, s => forUp body n (i + 1) (body i s)

/-- The loop `for (i = lo; i <= hi; ++i)`; it runs `hi + 1 - lo` times, and not
at all when `hi < lo`. -/
def forTo {σ : Type} (lo hi : Int) (body : Int → σ → σ) (s : σ) : σ :=
  forUp body (hi + 1 - lo).toNat lo s

/-- Ascending loop whose body may fail (an out-of-storage read), run for `n`
iterations starting at `i`. -/
def forUpM {σ : Type} (body : Int → σ → Option σ) : Nat → Int → σ → Option σ
  | 0, _, s => some s
  | n + 1, i, s => (body i s).bind (forUpM body n (i + 1))

/-- The loop `for (i = lo; i < hi; ++i)` with a fallible body. -/
def forLtM {σ : Type} (lo hi : Int) (body : Int → σ → Option σ) (s : σ) : Option σ :=
  forUpM body (hi - lo).toNat lo s

/-- The loop `for (i = lo; i <= hi; ++i)` with a fallible body. -/
def forToM {σ : Type} (lo hi : Int) (body : Int → σ → Option σ) (s : σ) : Option σ :=
  forUpM body (hi + 1 - lo).toNat lo s

/-- Descending loop with a fallible body, run for `n` iterations starting at `i`. -/
def forDownM {σ : Type} (body : Int → σ → Option σ) : Nat → Int → σ → Option σ
  | 0, _, s => some s
  | n + 1, i, s => (body i s).bind (forDownM body n (i - 1))

/-- The loop `for (i = hi; i > lo; --i)` with a fallible body. -/
def forGtM {σ : Type} (hi lo : Int) (body : Int → σ → Option σ) (s : σ) : Option σ :=
  forDownM body (hi - lo).toNat hi s

/-! ## `fill` and `square` -/

/-- Source `fill` (lines 13-19): rows `y = 1..300` outside, columns
`x = 1..300` inside, `cells[y][x] = cell(x, y, serial)`. -/
def fill (serial : Int) (g : Grid) : Grid :=
  forTo 1 300 (fun y g =>
    forTo 1 300 (fun x g => g.write y x (cell x y serial)) g) g

/-- Source `square` (lines 21-29): `total` starts at 0 and accumulates
`cells[y1][x1]` for `y1` in `[y, y + size)` and `x1` in `[x, x + size)`. -/
def square (g : Grid) (x y size : Int) : Option Int :=
  forLtM y (wrap32 (y + size)) (fun y1 total =>
    forLtM x (wrap32 (x + size)) (fun x1 total =>
      (g.read y1 x1).map (fun c => wrap32 (total + c))) total) 0

/-- The accumulation of `square` over a block of `m` rows and `n` columns when
no read fails: the running 32-bit `total`, started at `t`. -/
def squareAcc (g : Grid) (x y : Int) (m n : Nat) (t : Int) : Int :=
  forUp (fun y1 total => forUp (fun x1 total => wrap32 (total + g y1 x1)) n x total) m y t

/-- The sum of the `n`-by-`n` block of `f` anchored at column `x`, row `y`, in
exact integers: `f (y + dy) (x + dx)` over `dy, dx` in `[0, n)`. -/
def blockSum (f : Int → Int → Int) (x y : Int) (n : Nat) : Int :=
  ∑ dy ∈ Finset.range n, ∑ dx ∈ Finset.range n, f (y + (dy : Int)) (x + (dx : Int))

/-! ## The two searches -/

/-- The local `max` of `part1`: `struct { int value, x, y; }`. -/
structure Max1 where
  value : Int
  x : Int
  y : Int
  deriving DecidableEq

/-- The local `max` of `part2`: `struct { int value, x, y, size; }`. -/
structure Max2 where
  value : Int
  x : Int
  y : Int
  size : Int
  deriving DecidableEq

/-- The scan of `part1` (lines 41-51): the content of `max` when the loops end. -/
def part1_scan (g : Grid) : Option Max1 :=
  forToM 1 298 (fun y max =>
    forToM 1 298 (fun x max =>
      (square g x y 3).map (fun sq =>
        if sq > max.value then { value := sq, x := x, y := y } else max)) max)
    { value := 0, x := 0, y := 0 }

/-- The scan of `part2` (lines 57-72): the content of `max` when the loops end. -/
def part2_scan (g : Grid) : Option Max2 :=
  forGtM 300 0 (fun size max =>
    let limit := wrap32 (301 - size)
    forToM 1 limit (fun y max =>
      forToM 1 limit (fun x max =>
        (square g x y size).map (fun sq =>
          if sq > max.value then { value := sq, x := x, y := y, size := size } else max)) max)
      max)
    { value := 0, x := 0, y := 0, size := 0 }

/-! ## Scan order and scan invariants -/

/-- Value returned by `square` when all its reads are inside the storage. -/
def squareVal (g : Grid) (x y size : Int) : Int :=
  squareAcc g x y size.toNat size.toNat 0

/-- Scan order of `part1`: anchor `(x1, y1)` is visited before `(x, y)`. -/
def Before1 (x1 y1 x y : Int) : Prop :=
  y1 < y ∨ (y1 = y ∧ x1 < x)

/-- Anchors visited by `part1`. -/
def Anchor1 (x y : Int) : Prop :=
  1 ≤ x ∧ x ≤ 298 ∧ 1 ≤ y ∧ y ≤ 298

/-- Invariant of the `part1` scan when `(x, y)` is the next anchor to visit:
`max` bounds every visited sample, and is either the initial record or the
first visited anchor holding the greatest visited sum, which is positive. -/
def Inv1 (g : Grid) (x y : Int) (m : Max1) : Prop :=
  (∀ x1 y1, Anchor1 x1 y1 → Before1 x1 y1 x y → squareVal g x1 y1 3 ≤ m.value) ∧
  (m = { value := 0, x := 0, y := 0 } ∨
    (Anchor1 m.x m.y ∧ Before1 m.x m.y x y ∧ 0 < m.value ∧
      squareVal g m.x m.y 3 = m.value ∧
      ∀ x1 y1, Anchor1 x1 y1 → Before1 x1 y1 m.x m.y → squareVal g x1 y1 3 < m.value))

/-- Scan order of `part2`: size descending, then row, then column. -/
def Before2 (x1 y1 s1 x y s : Int) : Prop :=
  s < s1 ∨ (s1 = s ∧ Before1 x1 y1 x y)

/-- Squares visited by `part2`. -/
def Anchor2 (x y s : Int) : Prop :=
  1 ≤ s ∧ s ≤ 300 ∧ 1 ≤ x ∧ x ≤ 301 - s ∧ 1 ≤ y ∧ y ≤ 301 - s

/-- Invariant of the `part2` scan when `(x, y, s)` is the next square to visit. -/
def Inv2 (g : Grid) (x y s : Int) (m : Max2) : Prop :=
  (∀ x1 y1 s1, Anchor2 x1 y1 s1 → Before2 x1 y1 s1 x y s → squareVal g x1 y1 s1 ≤ m.value) ∧
  (m = { value := 0, x := 0, y := 0, size := 0 } ∨
    (Anchor2 m.x m.y m.size ∧ Before2 m.x m.y m.size x y s ∧ 0 < m.value ∧
      squareVal g m.x m.y m.size = m.value ∧
      ∀ x1 y1 s1, Anchor2 x1 y1 s1 → Before2 x1 y1 s1 m.x m.y m.size →
        squareVal g x1 y1 s1 < m.value))

/-! ## Sample grids -/

/-- A grid state with every cell at `INT_MAX`. -/
def gridIntMax : Grid := fun _ _ => 2147483647

/-- A grid state holding `10 * row + column`. -/
def gridRamp : Grid := fun y x => y * 10 + x

/-- A grid state that is zero except for a single `1` at row 5, column 7. -/
def gridSpot : Grid := fun y x => if y = 5 ∧ x = 7 then 1 else 0

/-! ## Exact and overflow-checked variants, read traces -/

/-- The loop `for (i = lo; i < hi; ++i)` with a body that cannot fail. -/
def forLt {σ : Type} (lo hi : Int) (body : Int → σ → σ) (s : σ) : σ :=
  forUp body (hi - lo).toNat lo s

/-- Source `cell` (lines 6-11) carried out in exact integers: the same
operations, truncating `/` and `%` included, without the 32-bit reduction. -/
def cell_exact (x y serial : Int) : Int :=
  let rackId := x + 10
  let startLevel := rackId * y
  let value := (startLevel + serial) * rackId
  Int.tmod (Int.tdiv value 100) 10 - 5

/-- The statement `total += c` with signed overflow as a failure: `none` when
the exact sum is not a 32-bit `int`. -/
def addChecked (total c : Int) : Option Int :=
  if -2147483648 ≤ total + c ∧ total + c ≤ 2147483647 then some (total + c) else none

/-- Source `square` (lines 21-29) with both an out-of-storage read and an
overflow of `total` as failures. -/
def square_checked (g : Grid) (x y size : Int) : Option Int :=
  forLtM y (wrap32 (y + size)) (fun y1 total =>
    forLtM x (wrap32 (x + size)) (fun x1 total =>
      (g.read y1 x1).bind (fun c => addChecked total c)) total) 0

/-- The index pairs `(y1, x1)` of the reads `cells[y1][x1]` that `square`
(lines 23-27) performs, in the order of the two loops. -/
def square_reads (x y size : Int) : List (Int × Int) :=
  forLt y (wrap32 (y + size)) (fun y1 acc =>
    forLt x (wrap32 (x + size)) (fun x1 acc => acc ++ [(y1, x1)]) acc) []

/-- Concatenation of `F i, F (i+1), ...`, `n` pieces. -/
def catFrom {α : Type} (F : Int → List α) : Nat → Int → List α
  | 0, _ => []
  | n + 1, i => F i ++ catFrom F n (i + 1)

/-! ## `print_square` and the two parts -/

/-- Source `print_square` (lines 31-38), with the effect of each
`printf("%4d", cells[y1][x1])` given by `emit y1 x1`: the list of rows, one per
`printf("\n")`, each the list of what was emitted, in order. -/
def print_square_with {α : Type} (emit : Int → Int → α) (x y size : Int) : List (List α) :=
  forLt (wrap32 (y - 1)) (wrap32 (wrap32 (y + size) + 1)) (fun y1 out =>
    out ++ [forLt (wrap32 (x - 1)) (wrap32 (wrap32 (x + size) + 1))
      (fun x1 row => row ++ [emit y1 x1]) []]) []

/-- Source `print_square` (lines 31-38): the rows of values printed; a value
read outside the storage is `none`.  The `%4d` layout is not modelled. -/
def print_square (g : Grid) (x y size : Int) : List (List (Option Int)) :=
  print_square_with (fun y1 x1 => g.read y1 x1) x y size

/-- The index pairs `(y1, x1)` read by `print_square`, row by row. -/
def print_square_reads (x y size : Int) : List (List (Int × Int)) :=
  print_square_with (fun y1 x1 => (y1, x1)) x y size

/-- Source `part1` (lines 40-54): the record printed by the `Part 1:` line and
the block printed by `print_square(max.x, max.y, 3)`. -/
def part1 (g : Grid) : Option (Max1 × List (List (Option Int))) :=
  (part1_scan g).map (fun max => (max, print_square g max.x max.y 3))

/-- Source `part2` (lines 56-75): the record printed by the `Part 2:` line and
the block printed by `print_square(max.x, max.y, max.size)`.  The progress
output is not modelled. -/
def part2 (g : Grid) : Option (Max2 × List (List (Option Int))) :=
  (part2_scan g).map (fun max => (max, print_square g max.x max.y max.size))

/-- The scan of `part2` (lines 57-72) with a history: the state is `max`
together with the list of the values `max` has held, the initial one first and
one more after each execution of the loop body. -/
def part2_trace (g : Grid) : Option (Max2 × List Max2) :=
  forGtM 300 0 (fun size st =>
    let limit := wrap32 (301 - size)
    forToM 1 limit (fun y st =>
      forToM 1 limit (fun x st =>
        (square g x y size).map (fun sq =>
          ((if sq > st.1.value then { value := sq, x := x, y := y, size := size } else st.1),
            st.2 ++ [if sq > st.1.value then { value := sq, x := x, y := y, size := size }
              else st.1]))) st)
      st)
    ({ value := 0, x := 0, y := 0, size := 0 }, [{ value := 0, x := 0, y := 0, size := 0 }])

/-- A record of `part2` that is the initial one or names a visited square with
its positive sum. -/
def RecordOK (g : Grid) (r : Max2) : Prop :=
  r = { value := 0, x := 0, y := 0, size := 0 } ∨
    (Anchor2 r.x r.y r.size ∧ 0 < r.value ∧ square g r.x r.y r.size = some r.value)

/-- Invariant of the `part2` scan with history: every value `max` has held is
a good record, the values never decrease, the history starts with the initial
record and ends with the current `max`. -/
def TraceInv (g : Grid) (st : Max2 × List Max2) : Prop :=
  RecordOK g st.1 ∧ (∀ r ∈ st.2, RecordOK g r ∧ r.value ≤ st.1.value) ∧
    st.2.Pairwise (fun a b => a.value ≤ b.value) ∧
    st.2.head? = some { value := 0, x := 0, y := 0, size := 0 } ∧
    st.2.getLast? = some st.1

/-! ## Packed lanes: a checker for the fixtures of both parts -/

/-- Width of a lane: `2^21`. -/
def laneBase : ℕ := 2097152

/-- Half a lane, `2^20`: the guard bit of a lane. -/
def laneHalf : ℕ := 1048576

/-- One row of 301 lanes: `laneBase ^ 301`. -/
def rowBase : ℕ := laneBase ^ 301

/-- Hundreds digit of `((X + 10) * Y + seed) * (X + 10)`. -/
def digitN (seed X Y : ℕ) : ℕ :=
  Nat.mod (Nat.div (Nat.mul (Nat.add (Nat.mul (Nat.add X 10) Y) seed) (Nat.add X 10)) 100) 10

/-- Horner evaluation of `f i + f (i+1) β + ... + f (i+k-1) β^(k-1)`. -/
def horner (β : ℕ) (f : ℕ → ℕ) : ℕ → ℕ → ℕ
  | _, 0 => 0
  | i, k + 1 => Nat.add (f i) (Nat.mul β (horner β f (Nat.add i 1) k))

/-- The digits of the populated block packed in one number, lane `301 * Y + X`
holding the digit of cell `(X, Y)`. -/
def packedGrid (seed : ℕ) : ℕ :=
  Nat.mul rowBase (horner rowBase
    (fun Y => Nat.mul laneBase (horner laneBase (fun X => digitN seed X Y) 1 300)) 1 300)

/-- Closed form of `1 + β + ... + β^(k-1)`. -/
def geom (β k : ℕ) : ℕ := Nat.div (Nat.sub (Nat.pow β k) 1) (Nat.sub β 1)

/-- The check for one size `s`: after adding the threshold to every lane of
the digit sums of all `s`-by-`s` squares, no guard bit is set. -/
def sizeCheck (G ones T s0 p0 s : ℕ) : Bool :=
  Nat.beq (Nat.land
    (Nat.add (Nat.mul (Nat.mul G (geom laneBase s)) (geom rowBase s))
      (Nat.sub (Nat.mul (Nat.sub (Nat.sub laneHalf T) (Nat.mul 5 (Nat.mul s s))) ones)
        (cond (Nat.beq s s0) (Nat.pow laneBase p0) 0)))
    (Nat.mul laneHalf ones)) 0

/-- The checks for the sizes `s, s+1, ..., s+k-1`. -/
def checkFrom (G ones T s0 p0 : ℕ) : ℕ → ℕ → Bool
  | _, 0 => true
  | s, k + 1 => and (sizeCheck G ones T s0 p0 s) (checkFrom G ones T s0 p0 (Nat.add s 1) k)

/-- The number whose lanes are `a 0, a 1, ..., a (n-1)`. -/
def pack (a : ℕ → ℕ) (n : ℕ) : ℕ := ∑ p ∈ Finset.range n, a p * laneBase ^ p

/-- Lane content of `packedGrid`. -/
def gridLane (seed : ℕ) (p : ℕ) : ℕ :=
  if 1 ≤ p % 301 ∧ 1 ≤ p / 301 ∧ p / 301 ≤ 300 then digitN seed (p % 301) (p / 301) else 0

/-- Lanes moved up by `d`. -/
def shiftLane (d : ℕ) (a : ℕ → ℕ) (q : ℕ) : ℕ := if d ≤ q then a (q - d) else 0

/-- Lane content of `packedGrid` times the `s`-by-`s` kernel: lane `q` holds
the digit sum of the square whose last cell is lane `q`. -/
def convLane (seed s : ℕ) (q : ℕ) : ℕ :=
  ∑ dx ∈ Finset.range s, ∑ dy ∈ Finset.range s, shiftLane (dx + 301 * dy) (gridLane seed) q

/-! ## Machine-integer lemmas -/

theorem wrap32_of_range {n : Int} (h1 : -2147483648 ≤ n) (h2 : n < 2147483648) :
    wrap32 n = n := by
  unfold wrap32; omega

theorem wrap32_bounds (n : Int) : -2147483648 ≤ wrap32 n ∧ wrap32 n < 2147483648 := by
  unfold wrap32; omega

theorem tmod_neg_left (a b : Int) : Int.tmod (-a) b = -(Int.tmod a b) := by
  rw [Int.tmod_def, Int.tmod_def, Int.neg_tdiv]; ring

theorem tmod_ten_bounds (a : Int) : -9 ≤ Int.tmod a 10 ∧ Int.tmod a 10 ≤ 9 := by
  rcases le_total 0 a with h | h
  · have h1 := Int.tmod_nonneg 10 h
    have h2 := Int.tmod_lt_of_pos a (show (0 : Int) < 10 by decide)
    omega
  · have h0 : 0 ≤ -a := by omega
    have h1 := Int.tmod_nonneg 10 h0
    have h2 := Int.tmod_lt_of_pos (-a) (show (0 : Int) < 10 by decide)
    rw [tmod_neg_left] at h1 h2
    omega

theorem tmod_ten_nonpos {a : Int} (h : a ≤ 0) : Int.tmod a 10 ≤ 0 := by
  have h0 : 0 ≤ -a := by omega
  have h1 := Int.tmod_nonneg 10 h0
  rw [tmod_neg_left] at h1
  omega

theorem tdiv_hundred_nonpos {a : Int} (h : a ≤ 0) : Int.tdiv a 100 ≤ 0 := by
  have h0 : 0 ≤ -a := by omega
  have h1 := Int.tdiv_nonneg h0 (show (0 : Int) ≤ 100 by decide)
  rw [Int.neg_tdiv] at h1
  omega

/-! ## Lemmas on `cell` -/

/-- On the puzzle domain no intermediate of `cell` leaves `[0, 2^31)`. -/
theorem cell_value_bounds {x y seed : Int} (hx1 : 1 ≤ x) (hx2 : x ≤ 300) (hy1 : 1 ≤ y)
    (hy2 : y ≤ 300) (hs1 : 0 ≤ seed) (hs2 : seed ≤ 6834366) :
    0 ≤ (x + 10) * y ∧ (x + 10) * y ≤ 93000 ∧
      0 ≤ ((x + 10) * y + seed) * (x + 10) ∧
      ((x + 10) * y + seed) * (x + 10) ≤ 2147483460 := by
  have a1 : 0 ≤ (x + 10) * y := by positivity
  have a2 : (x + 10) * y ≤ 310 * 300 :=
    mul_le_mul (by omega) hy2 (by omega) (by omega)
  have a3 : 0 ≤ ((x + 10) * y + seed) * (x + 10) :=
    mul_nonneg (by omega) (by omega)
  have a4 : ((x + 10) * y + seed) * (x + 10) ≤ 6927366 * 310 :=
    mul_le_mul (by omega) (by omega) (by omega) (by omega)
  refine ⟨a1, by omega, a3, by omega⟩

theorem cell_exact_on_domain {x y seed : Int} (hx1 : 1 ≤ x) (hx2 : x ≤ 300) (hy1 : 1 ≤ y)
    (hy2 : y ≤ 300) (hs1 : 0 ≤ seed) (hs2 : seed ≤ 6834366) :
    cell x y seed = cellSpec x y seed := by
  obtain ⟨a1, a2, a3, a4⟩ := cell_value_bounds hx1 hx2 hy1 hy2 hs1 hs2
  have r1 : wrap32 (x + 10) = x + 10 := wrap32_of_range (by omega) (by omega)
  have r2 : wrap32 ((x + 10) * y) = (x + 10) * y := wrap32_of_range (by omega) (by omega)
  have r3 : wrap32 ((x + 10) * y + seed) = (x + 10) * y + seed :=
    wrap32_of_range (by omega) (by omega)
  have r4 : wrap32 (((x + 10) * y + seed) * (x + 10)) = ((x + 10) * y + seed) * (x + 10) :=
    wrap32_of_range (by omega) (by omega)
  unfold cell cellSpec
  simp only [r1, r2, r3, r4]
  rw [Int.tdiv_eq_ediv a3 (by decide),
    Int.tmod_eq_emod (Int.ediv_nonneg a3 (by decide)) (by decide)]
  exact wrap32_of_range (by omega) (by omega)

theorem cell_bounds_any (x y seed : Int) : -14 ≤ cell x y seed ∧ cell x y seed ≤ 4 := by
  unfold cell
  simp only []
  generalize Int.tdiv _ 100 = q
  have h := tmod_ten_bounds q
  rw [wrap32_of_range (by omega) (by omega)]
  omega

/-- When the 32-bit `value` is not positive, the returned level is at most `-5`. -/
theorem cell_le_of_value_nonpos {x y seed : Int}
    (h : wrap32 (wrap32 (wrap32 (wrap32 (x + 10) * y) + seed) * wrap32 (x + 10)) ≤ 0) :
    cell x y seed ≤ -5 := by
  unfold cell
  simp only []
  have h1 := tmod_ten_nonpos (tdiv_hundred_nonpos h)
  have h2 := tmod_ten_bounds
    (Int.tdiv (wrap32 (wrap32 (wrap32 (wrap32 (x + 10) * y) + seed) * wrap32 (x + 10))) 100)
  rw [wrap32_of_range (by omega) (by omega)]
  omega

/-! ## Lemmas on `fill` -/

theorem forUp_write_row (y : Int) (f : Int → Int) (n : Nat) (i : Int) (g : Grid) :
    forUp (fun x (g : Grid) => g.write y x (f x)) n i g =
      fun y1 x1 => if y1 = y ∧ i ≤ x1 ∧ x1 < i + n then f x1 else g y1 x1 := by
  induction n generalizing i g with
  | zero =>
    funext y1 x1
    simp only [forUp]
    rw [if_neg]
    intro h
    simp at h
    omega
  | succ n ih =>
    funext y1 x1
    simp only [forUp, ih, Grid.write]
    push_cast
    by_cases h1 : y1 = y
    · by_cases h2 : x1 = i
      · subst h1; subst h2
        rw [if_neg (by omega), if_pos ⟨rfl, rfl⟩, if_pos ⟨rfl, by omega, by omega⟩]
      · by_cases h3 : i + 1 ≤ x1 ∧ x1 < i + 1 + n
        · rw [if_pos ⟨h1, h3⟩, if_pos ⟨h1, by omega, by omega⟩]
        · rw [if_neg (fun h => h3 h.2), if_neg (fun h => h2 h.2), if_neg (fun h => h3 (by omega))]
    · rw [if_neg (fun h => h1 h.1), if_neg (fun h => h1 h.1), if_neg (fun h => h1 h.1)]

theorem forUp_succ {σ : Type} (body : Int → σ → σ) (n : Nat) (i : Int) (s : σ) :
    forUp body (n + 1) i s = forUp body n (i + 1) (body i s) := rfl

theorem forTo_write_row (y : Int) (f : Int → Int) (g : Grid) :
    forTo 1 300 (fun x (g : Grid) => g.write y x (f x)) g =
      fun y1 x1 => if y1 = y ∧ 1 ≤ x1 ∧ x1 ≤ 300 then f x1 else g y1 x1 := by
  unfold forTo
  rw [forUp_write_row]
  funext y1 x1
  have e : ((300 + 1 - 1 : Int).toNat : Int) = 300 := by decide
  rw [e]
  by_cases h : y1 = y ∧ 1 ≤ x1 ∧ x1 ≤ 300
  · rw [if_pos h, if_pos (by omega)]
  · rw [if_neg h, if_neg (fun h1 => h (by omega))]

theorem forUp_fill_rows (serial : Int) (n : Nat) (i : Int) (g : Grid) :
    forUp (fun y (g : Grid) =>
        forTo 1 300 (fun x (g : Grid) => g.write y x (cell x y serial)) g) n i g =
      fun y1 x1 =>
        if i ≤ y1 ∧ y1 < i + n ∧ 1 ≤ x1 ∧ x1 ≤ 300 then cell x1 y1 serial else g y1 x1 := by
  induction n generalizing i g with
  | zero =>
    funext y1 x1
    simp only [forUp]
    rw [if_neg]
    intro h
    simp at h
    omega
  | succ n ih =>
    funext y1 x1
    rw [forUp_succ, ih, forTo_write_row i (fun x => cell x i serial)]
    push_cast
    by_cases h1 : y1 = i
    · subst h1
      rw [if_neg (by omega)]
      by_cases h2 : 1 ≤ x1 ∧ x1 ≤ 300
      · rw [if_pos ⟨rfl, h2⟩, if_pos ⟨by omega, by omega, h2⟩]
      · rw [if_neg (fun h => h2 h.2), if_neg (fun h => h2 h.2.2)]
    · by_cases h3 : i + 1 ≤ y1 ∧ y1 < i + 1 + n ∧ 1 ≤ x1 ∧ x1 ≤ 300
      · rw [if_pos h3, if_pos (by omega)]
      · rw [if_neg h3, if_neg (fun h => h1 h.1), if_neg (fun h => h3 (by omega))]

/-- What `fill` leaves in the array: the populated block holds `cell`, the rest
(row 0 and column 0 included) keeps its previous content. -/
theorem fill_apply (serial : Int) (g : Grid) (y x : Int) :
    fill serial g y x =
      if 1 ≤ y ∧ y ≤ 300 ∧ 1 ≤ x ∧ x ≤ 300 then cell x y serial else g y x := by
  unfold fill
  rw [forTo, forUp_fill_rows]
  have e : ((300 + 1 - 1 : Int).toNat : Int) = 300 := by decide
  rw [e]
  show (if 1 ≤ y ∧ y < 1 + 300 ∧ 1 ≤ x ∧ x ≤ 300 then cell x y serial else g y x) = _
  by_cases h : 1 ≤ y ∧ y ≤ 300 ∧ 1 ≤ x ∧ x ≤ 300
  · rw [if_pos h, if_pos (by omega)]
  · rw [if_neg h, if_neg (fun h1 => h (by omega))]

/-! ## Lemmas on the loops -/

theorem forUpM_eq_some_forUp {σ : Type} (body : Int → σ → Option σ) (f : Int → σ → σ)
    (n : Nat) (i : Int) (s : σ)
    (h : ∀ (k : Nat) (s : σ), k < n → body (i + k) s = some (f (i + k) s)) :
    forUpM body n i s = some (forUp f n i s) := by
  induction n generalizing i s with
  | zero => rfl
  | succ n ih =>
    have h0 := h 0 s (Nat.succ_pos n)
    simp only [Nat.cast_zero, add_zero] at h0
    simp only [forUpM, forUp, h0, Option.some_bind]
    apply ih
    intro k s hk
    have hk1 := h (k + 1) s (Nat.succ_lt_succ hk)
    have e : i + ((k + 1 : Nat) : Int) = i + 1 + (k : Int) := by push_cast; ring
    rw [e] at hk1
    exact hk1

/-- Invariant rule for the ascending loop: `P k` holds before iteration `k`. -/
theorem forUpM_inv {σ : Type} (body : Int → σ → Option σ) (P : Nat → σ → Prop)
    (n : Nat) (i : Int) (s : σ) (h0 : P 0 s)
    (hstep : ∀ (k : Nat) (s : σ), k < n → P k s →
      ∃ s1, body (i + k) s = some s1 ∧ P (k + 1) s1) :
    ∃ s1, forUpM body n i s = some s1 ∧ P n s1 := by
  induction n generalizing i s P with
  | zero => exact ⟨s, rfl, h0⟩
  | succ n ih =>
    obtain ⟨s1, hb, hp⟩ := hstep 0 s (Nat.succ_pos n) h0
    simp only [Nat.cast_zero, add_zero] at hb
    simp only [forUpM, hb, Option.some_bind]
    apply ih (fun k s => P (k + 1) s) (i + 1) s1 hp
    intro k s hk hP
    have e : i + 1 + (k : Int) = i + ((k + 1 : Nat) : Int) := by push_cast; ring
    rw [e]
    exact hstep (k + 1) s (Nat.succ_lt_succ hk) hP

/-- Invariant rule for the descending loop: `P k` holds before iteration `k`. -/
theorem forDownM_inv {σ : Type} (body : Int → σ → Option σ) (P : Nat → σ → Prop)
    (n : Nat) (i : Int) (s : σ) (h0 : P 0 s)
    (hstep : ∀ (k : Nat) (s : σ), k < n → P k s →
      ∃ s1, body (i - k) s = some s1 ∧ P (k + 1) s1) :
    ∃ s1, forDownM body n i s = some s1 ∧ P n s1 := by
  induction n generalizing i s P with
  | zero => exact ⟨s, rfl, h0⟩
  | succ n ih =>
    obtain ⟨s1, hb, hp⟩ := hstep 0 s (Nat.succ_pos n) h0
    simp only [Nat.cast_zero, sub_zero] at hb
    simp only [forDownM, hb, Option.some_bind]
    apply ih (fun k s => P (k + 1) s) (i - 1) s1 hp
    intro k s hk hP
    have e : i - 1 - (k : Int) = i - ((k + 1 : Nat) : Int) := by push_cast; ring
    rw [e]
    exact hstep (k + 1) s (Nat.succ_lt_succ hk) hP

/-! ## Lemmas on `square` -/

theorem read_eq_some (g : Grid) {y x : Int} (hy1 : 0 ≤ y) (hy2 : y ≤ 300) (hx1 : 0 ≤ x)
    (hx2 : x ≤ 300) : g.read y x = some (g y x) := by
  unfold Grid.read
  rw [if_pos ⟨hy1, hy2, hx1, hx2⟩]

/-- Inside the storage every read of `square` succeeds and the result is the
32-bit accumulation. -/
theorem square_eq_some (g : Grid) {x y size : Int} (hx : 0 ≤ x) (hy : 0 ≤ y) (hs : 0 ≤ size)
    (hx2 : x + size ≤ 301) (hy2 : y + size ≤ 301) :
    square g x y size = some (squareAcc g x y size.toNat size.toNat 0) := by
  have ex : wrap32 (x + size) = x + size := wrap32_of_range (by omega) (by omega)
  have ey : wrap32 (y + size) = y + size := wrap32_of_range (by omega) (by omega)
  have cx : (x + size - x).toNat = size.toNat := by rw [add_sub_cancel_left]
  have cy : (y + size - y).toNat = size.toNat := by rw [add_sub_cancel_left]
  unfold square squareAcc forLtM
  rw [ex, ey, cx, cy]
  apply forUpM_eq_some_forUp
  intro k t hk
  apply forUpM_eq_some_forUp
  intro j t1 hj
  have hk1 : (k : Int) < size := by omega
  have hj1 : (j : Int) < size := by omega
  rw [read_eq_some g (by omega) (by omega) (by omega) (by omega)]
  rfl

/-- One row of the accumulation is exact when the running total cannot leave
the 32-bit range. -/
theorem row_acc_exact (f : Int → Int) (B : Int) (n : Nat) (i t T : Int)
    (hf : ∀ k : Nat, k < n → -B ≤ f (i + k) ∧ f (i + k) ≤ B)
    (ht : -T ≤ t ∧ t ≤ T) (hT : T + n * B ≤ 2147483647) (hB : 0 ≤ B) :
    forUp (fun x1 total => wrap32 (total + f x1)) n i t
        = t + ∑ k ∈ Finset.range n, f (i + (k : Int)) ∧
      -(T + n * B) ≤ t + ∑ k ∈ Finset.range n, f (i + (k : Int)) ∧
      t + ∑ k ∈ Finset.range n, f (i + (k : Int)) ≤ T + n * B := by
  induction n generalizing i t T with
  | zero => simp [forUp]; omega
  | succ n ih =>
    have e1 : ((n + 1 : Nat) : Int) * B = n * B + B := by push_cast; ring
    have hnB : 0 ≤ (n : Int) * B := mul_nonneg (Int.ofNat_nonneg n) hB
    have h0 := hf 0 (Nat.succ_pos n)
    simp only [Nat.cast_zero, add_zero] at h0
    have hw : wrap32 (t + f i) = t + f i := wrap32_of_range (by omega) (by omega)
    have hf1 : ∀ k : Nat, k < n → -B ≤ f (i + 1 + k) ∧ f (i + 1 + k) ≤ B := by
      intro k hk
      have := hf (k + 1) (Nat.succ_lt_succ hk)
      have e : i + ((k + 1 : Nat) : Int) = i + 1 + (k : Int) := by push_cast; ring
      rw [e] at this
      exact this
    have := ih (i + 1) (t + f i) (T + B) hf1 (by omega) (by omega)
    have es : ∑ k ∈ Finset.range (n + 1), f (i + (k : Int))
        = f i + ∑ k ∈ Finset.range n, f (i + 1 + (k : Int)) := by
      rw [Finset.sum_range_succ', add_comm]
      simp only [Nat.cast_zero, add_zero]
      congr 1
      apply Finset.sum_congr rfl
      intro k _
      congr 1
      push_cast; ring
    rw [forUp_succ, hw, es]
    omega


/-- The whole accumulation is exact when `m * n` cells of magnitude at most `B`
cannot take the running total out of the 32-bit range. -/
theorem squareAcc_exact (g : Grid) (B : Int) (x : Int) (n m : Nat) (y t T : Int)
    (hg : ∀ dy dx : Nat, dy < m → dx < n →
      -B ≤ g (y + dy) (x + dx) ∧ g (y + dy) (x + dx) ≤ B)
    (ht : -T ≤ t ∧ t ≤ T) (hT : T + m * (n * B) ≤ 2147483647) (hB : 0 ≤ B) :
    squareAcc g x y m n t
        = t + ∑ dy ∈ Finset.range m, ∑ dx ∈ Finset.range n, g (y + (dy : Int)) (x + (dx : Int)) ∧
      -(T + m * (n * B)) ≤
        t + ∑ dy ∈ Finset.range m, ∑ dx ∈ Finset.range n, g (y + (dy : Int)) (x + (dx : Int)) ∧
      t + ∑ dy ∈ Finset.range m, ∑ dx ∈ Finset.range n, g (y + (dy : Int)) (x + (dx : Int))
        ≤ T + m * (n * B) := by
  induction m generalizing y t T with
  | zero => simp [squareAcc, forUp]; omega
  | succ m ih =>
    have e1 : ((m + 1 : Nat) : Int) * (n * B) = m * (n * B) + n * B := by push_cast; ring
    have hnB : 0 ≤ (n : Int) * B := mul_nonneg (Int.ofNat_nonneg n) hB
    have hmnB : 0 ≤ (m : Int) * (n * B) := mul_nonneg (Int.ofNat_nonneg m) hnB
    have hrow := row_acc_exact (g y) B n x t T
      (fun k hk => by simpa using hg 0 k (Nat.succ_pos m) hk) ht (by omega) hB
    have hg1 : ∀ dy dx : Nat, dy < m → dx < n →
        -B ≤ g (y + 1 + dy) (x + dx) ∧ g (y + 1 + dy) (x + dx) ≤ B := by
      intro dy dx hdy hdx
      have := hg (dy + 1) dx (Nat.succ_lt_succ hdy) hdx
      have e : y + ((dy + 1 : Nat) : Int) = y + 1 + (dy : Int) := by push_cast; ring
      rw [e] at this
      exact this
    have hrec := ih (y + 1) (t + ∑ k ∈ Finset.range n, g y (x + (k : Int))) (T + n * B) hg1
      ⟨hrow.2.1, hrow.2.2⟩ (by omega)
    have es : ∑ dy ∈ Finset.range (m + 1), ∑ dx ∈ Finset.range n,
          g (y + (dy : Int)) (x + (dx : Int))
        = ∑ dx ∈ Finset.range n, g y (x + (dx : Int)) +
          ∑ dy ∈ Finset.range m, ∑ dx ∈ Finset.range n, g (y + 1 + (dy : Int)) (x + (dx : Int)) := by
      rw [Finset.sum_range_succ', add_comm]
      simp only [Nat.cast_zero, add_zero]
      congr 1
      apply Finset.sum_congr rfl
      intro k _
      have e : y + ((k + 1 : Nat) : Int) = y + 1 + (k : Int) := by push_cast; ring
      rw [e]
    have eu : squareAcc g x y (m + 1) n t
        = squareAcc g x (y + 1) m n (forUp (fun x1 total => wrap32 (total + g y x1)) n x t) := rfl
    rw [eu, hrow.1, es]
    omega

/-- With every cell of the block of magnitude at most `B` and `n * n * B`
inside the 32-bit range, `square` returns the exact block sum. -/
theorem square_eq_blockSum (g : Grid) (B : Int) (x y size : Int) (hx : 0 ≤ x) (hy : 0 ≤ y)
    (hs : 0 ≤ size) (hx2 : x + size ≤ 301) (hy2 : y + size ≤ 301) (hB : 0 ≤ B)
    (hBs : size * (size * B) ≤ 2147483647)
    (hg : ∀ dy dx : Int, 0 ≤ dy → dy < size → 0 ≤ dx → dx < size →
      -B ≤ g (y + dy) (x + dx) ∧ g (y + dy) (x + dx) ≤ B) :
    square g x y size = some (blockSum g x y size.toNat) ∧
      -(size * (size * B)) ≤ blockSum g x y size.toNat ∧
      blockSum g x y size.toNat ≤ size * (size * B) := by
  have e : ((size.toNat : Nat) : Int) = size := Int.toNat_of_nonneg hs
  have h := squareAcc_exact g B x size.toNat size.toNat y 0 0
    (fun dy dx hdy hdx => hg dy dx (by omega) (by omega) (by omega) (by omega))
    ⟨by omega, by omega⟩ (by rw [e]; omega) hB
  rw [e] at h
  simp only [zero_add] at h
  rw [square_eq_some g hx hy hs hx2 hy2]
  unfold blockSum
  exact ⟨by rw [h.1], by omega, by omega⟩


/-! ## The `part1` scan -/

theorem square_anchor1 (g : Grid) {x y : Int} (h : Anchor1 x y) :
    square g x y 3 = some (squareVal g x y 3) := by
  unfold Anchor1 at h
  exact square_eq_some g (by omega) (by omega) (by omega) (by omega) (by omega)

theorem inv1_value_nonneg {g : Grid} {x y : Int} {m : Max1} (h : Inv1 g x y m) :
    0 ≤ m.value := by
  rcases h.2 with h0 | h1
  · rw [h0]
  · omega

theorem inv1_start (g : Grid) : Inv1 g 1 1 { value := 0, x := 0, y := 0 } := by
  refine ⟨?_, Or.inl rfl⟩
  intro x1 y1 ha hb
  unfold Anchor1 at ha
  unfold Before1 at hb
  omega

theorem inv1_step {g : Grid} {x y : Int} {m : Max1} (h : Inv1 g x y m) (ha : Anchor1 x y) :
    Inv1 g (x + 1) y
      (if squareVal g x y 3 > m.value then { value := squareVal g x y 3, x := x, y := y }
        else m) := by
  have hm := inv1_value_nonneg h
  obtain ⟨hA, hB⟩ := h
  by_cases hc : squareVal g x y 3 > m.value
  · rw [if_pos hc]
    refine ⟨?_, Or.inr ⟨ha, ?_, ?_, rfl, ?_⟩⟩
    · intro x1 y1 h1 hb
      show squareVal g x1 y1 3 ≤ squareVal g x y 3
      by_cases he : x1 = x ∧ y1 = y
      · rw [he.1, he.2]
      · have := hA x1 y1 h1 (by unfold Before1 at *; omega)
        omega
    · show Before1 x y (x + 1) y
      unfold Before1; omega
    · show 0 < squareVal g x y 3
      omega
    · intro x1 y1 h1 hb
      have := hA x1 y1 h1 hb
      show squareVal g x1 y1 3 < squareVal g x y 3
      omega
  · rw [if_neg hc]
    refine ⟨?_, ?_⟩
    · intro x1 y1 h1 hb
      by_cases he : x1 = x ∧ y1 = y
      · rw [he.1, he.2]; omega
      · exact hA x1 y1 h1 (by unfold Before1 at *; omega)
    · rcases hB with h0 | ⟨b1, b2, b3, b4, b5⟩
      · exact Or.inl h0
      · exact Or.inr ⟨b1, by unfold Before1 at *; omega, b3, b4, b5⟩

theorem inv1_next_row {g : Grid} {y : Int} {m : Max1} (h : Inv1 g 299 y m) :
    Inv1 g 1 (y + 1) m := by
  obtain ⟨hA, hB⟩ := h
  refine ⟨?_, ?_⟩
  · intro x1 y1 h1 hb
    exact hA x1 y1 h1 (by unfold Before1 Anchor1 at *; omega)
  · rcases hB with h0 | ⟨b1, b2, b3, b4, b5⟩
    · exact Or.inl h0
    · exact Or.inr ⟨b1, by unfold Before1 Anchor1 at *; omega, b3, b4, b5⟩

/-- The `part1` scan always completes, and its record satisfies the invariant
for the position after the last anchor. -/
theorem part1_scan_inv (g : Grid) : ∃ m, part1_scan g = some m ∧ Inv1 g 1 299 m := by
  unfold part1_scan forToM
  have e : (298 + 1 - 1 : Int).toNat = 298 := by decide
  rw [e]
  apply forUpM_inv _ (fun k m => Inv1 g 1 (1 + k) m) 298 1 _ (by simpa using inv1_start g)
  intro ky m hky hm
  have hrow := forUpM_inv
    (fun x max => (square g x (1 + (ky : Int)) 3).map (fun sq =>
        if sq > max.value then ({ value := sq, x := x, y := 1 + (ky : Int) } : Max1) else max))
    (fun k m => Inv1 g (1 + k) (1 + ky) m) 298 1 m (by simpa using hm) (by
      intro kx m hkx hm
      have ha : Anchor1 (1 + (kx : Int)) (1 + (ky : Int)) := by unfold Anchor1; omega
      beta_reduce
      rw [square_anchor1 g ha]
      refine ⟨_, rfl, ?_⟩
      have := inv1_step hm ha
      have e2 : (1 : Int) + ((kx + 1 : Nat) : Int) = 1 + (kx : Int) + 1 := by push_cast; ring
      rw [e2]
      exact this)
  obtain ⟨m1, hm1, hinv⟩ := hrow
  refine ⟨m1, hm1, ?_⟩
  have e3 : (1 : Int) + ((ky + 1 : Nat) : Int) = 1 + (ky : Int) + 1 := by push_cast; ring
  rw [e3]
  apply inv1_next_row
  have e4 : (1 : Int) + ((298 : Nat) : Int) = 299 := by norm_num
  rw [e4] at hinv
  exact hinv


/-! ## The `part2` scan -/

theorem square_anchor2 (g : Grid) {x y s : Int} (h : Anchor2 x y s) :
    square g x y s = some (squareVal g x y s) := by
  unfold Anchor2 at h
  exact square_eq_some g (by omega) (by omega) (by omega) (by omega) (by omega)

theorem inv2_value_nonneg {g : Grid} {x y s : Int} {m : Max2} (h : Inv2 g x y s m) :
    0 ≤ m.value := by
  rcases h.2 with h0 | h1
  · rw [h0]
  · omega

theorem inv2_start (g : Grid) : Inv2 g 1 1 300 { value := 0, x := 0, y := 0, size := 0 } := by
  refine ⟨?_, Or.inl rfl⟩
  intro x1 y1 s1 ha hb
  unfold Anchor2 at ha
  unfold Before2 Before1 at hb
  omega

theorem inv2_step {g : Grid} {x y s : Int} {m : Max2} (h : Inv2 g x y s m)
    (ha : Anchor2 x y s) :
    Inv2 g (x + 1) y s
      (if squareVal g x y s > m.value then
        { value := squareVal g x y s, x := x, y := y, size := s } else m) := by
  have hm := inv2_value_nonneg h
  obtain ⟨hA, hB⟩ := h
  by_cases hc : squareVal g x y s > m.value
  · rw [if_pos hc]
    refine ⟨?_, Or.inr ⟨ha, ?_, ?_, rfl, ?_⟩⟩
    · intro x1 y1 s1 h1 hb
      show squareVal g x1 y1 s1 ≤ squareVal g x y s
      by_cases he : x1 = x ∧ y1 = y ∧ s1 = s
      · rw [he.1, he.2.1, he.2.2]
      · have := hA x1 y1 s1 h1 (by unfold Before2 Before1 at *; omega)
        omega
    · show Before2 x y s (x + 1) y s
      unfold Before2 Before1; omega
    · show 0 < squareVal g x y s
      omega
    · intro x1 y1 s1 h1 hb
      have := hA x1 y1 s1 h1 hb
      show squareVal g x1 y1 s1 < squareVal g x y s
      omega
  · rw [if_neg hc]
    refine ⟨?_, ?_⟩
    · intro x1 y1 s1 h1 hb
      by_cases he : x1 = x ∧ y1 = y ∧ s1 = s
      · rw [he.1, he.2.1, he.2.2]; omega
      · exact hA x1 y1 s1 h1 (by unfold Before2 Before1 at *; omega)
    · rcases hB with h0 | ⟨b1, b2, b3, b4, b5⟩
      · exact Or.inl h0
      · exact Or.inr ⟨b1, by unfold Before2 Before1 at *; omega, b3, b4, b5⟩

theorem inv2_next_row {g : Grid} {y s : Int} {m : Max2} (h : Inv2 g (301 - s + 1) y s m) :
    Inv2 g 1 (y + 1) s m := by
  obtain ⟨hA, hB⟩ := h
  refine ⟨?_, ?_⟩
  · intro x1 y1 s1 h1 hb
    exact hA x1 y1 s1 h1 (by unfold Before2 Before1 Anchor2 at *; omega)
  · rcases hB with h0 | ⟨b1, b2, b3, b4, b5⟩
    · exact Or.inl h0
    · exact Or.inr ⟨b1, by unfold Before2 Before1 Anchor2 at *; omega, b3, b4, b5⟩

theorem inv2_next_size {g : Grid} {s : Int} {m : Max2} (h : Inv2 g 1 (301 - s + 1) s m) :
    Inv2 g 1 1 (s - 1) m := by
  obtain ⟨hA, hB⟩ := h
  refine ⟨?_, ?_⟩
  · intro x1 y1 s1 h1 hb
    exact hA x1 y1 s1 h1 (by unfold Before2 Before1 Anchor2 at *; omega)
  · rcases hB with h0 | ⟨b1, b2, b3, b4, b5⟩
    · exact Or.inl h0
    · exact Or.inr ⟨b1, by unfold Before2 Before1 Anchor2 at *; omega, b3, b4, b5⟩

/-- One size of the `part2` scan: all anchors of size `s` are visited. -/
theorem part2_size_inv (g : Grid) {s : Int} (hs1 : 1 ≤ s) (hs2 : s ≤ 300) {m : Max2}
    (hm : Inv2 g 1 1 s m) :
    ∃ m1, forToM 1 (301 - s) (fun y max =>
        forToM 1 (301 - s) (fun x max =>
          (square g x y s).map (fun sq =>
            if sq > max.value then ({ value := sq, x := x, y := y, size := s } : Max2)
            else max)) max) m = some m1 ∧ Inv2 g 1 1 (s - 1) m1 := by
  unfold forToM
  have hL : (((301 - s + 1 - 1 : Int).toNat : Nat) : Int) = 301 - s := by omega
  generalize hn : (301 - s + 1 - 1 : Int).toNat = n at hL
  have hrows := forUpM_inv
    (fun y max => forUpM (fun x max =>
      (square g x y s).map (fun sq =>
        if sq > max.value then ({ value := sq, x := x, y := y, size := s } : Max2)
        else max)) n 1 max)
    (fun k m => Inv2 g 1 (1 + k) s m) n 1 m (by simpa using hm) (by
      intro ky m hky hm
      have hrow := forUpM_inv
        (fun x max => (square g x (1 + (ky : Int)) s).map (fun sq =>
          if sq > max.value then
            ({ value := sq, x := x, y := 1 + (ky : Int), size := s } : Max2) else max))
        (fun k m => Inv2 g (1 + k) (1 + ky) s m) n 1 m (by simpa using hm) (by
          intro kx m hkx hm
          have ha : Anchor2 (1 + (kx : Int)) (1 + (ky : Int)) s := by unfold Anchor2; omega
          beta_reduce
          rw [square_anchor2 g ha]
          refine ⟨_, rfl, ?_⟩
          have := inv2_step hm ha
          have e2 : (1 : Int) + ((kx + 1 : Nat) : Int) = 1 + (kx : Int) + 1 := by
            push_cast; ring
          rw [e2]
          exact this)
      obtain ⟨m1, hm1, hinv⟩ := hrow
      refine ⟨m1, hm1, ?_⟩
      have e3 : (1 : Int) + ((ky + 1 : Nat) : Int) = 1 + (ky : Int) + 1 := by push_cast; ring
      beta_reduce
      rw [e3]
      apply inv2_next_row
      have e4 : (1 : Int) + (n : Int) = 301 - s + 1 := by omega
      rw [e4] at hinv
      exact hinv)
  obtain ⟨m1, hm1, hinv⟩ := hrows
  refine ⟨m1, hm1, ?_⟩
  apply inv2_next_size
  have e4 : (1 : Int) + (n : Int) = 301 - s + 1 := by omega
  rw [e4] at hinv
  exact hinv

/-- The `part2` scan always completes, and its record satisfies the invariant
for the position after the last square. -/
theorem part2_scan_inv (g : Grid) : ∃ m, part2_scan g = some m ∧ Inv2 g 1 1 0 m := by
  unfold part2_scan forGtM
  have e : (300 - 0 : Int).toNat = 300 := by decide
  rw [e]
  have h := forDownM_inv
    (fun size max =>
      let limit := wrap32 (301 - size)
      forToM 1 limit (fun y max =>
        forToM 1 limit (fun x max =>
          (square g x y size).map (fun sq =>
            if sq > max.value then ({ value := sq, x := x, y := y, size := size } : Max2)
            else max)) max) max)
    (fun k m => Inv2 g 1 1 (300 - k) m) 300 300
    { value := 0, x := 0, y := 0, size := 0 } (by simpa using inv2_start g) (by
      intro k m hk hm
      have hw : wrap32 (301 - (300 - (k : Int))) = 301 - (300 - (k : Int)) :=
        wrap32_of_range (by omega) (by omega)
      beta_reduce
      simp only [hw]
      have := part2_size_inv g (s := 300 - (k : Int)) (by omega) (by omega) hm
      obtain ⟨m1, hm1, hinv⟩ := this
      refine ⟨m1, hm1, ?_⟩
      have e2 : (300 : Int) - ((k + 1 : Nat) : Int) = 300 - (k : Int) - 1 := by
        push_cast; ring
      rw [e2]
      exact hinv)
  obtain ⟨m1, hm1, hinv⟩ := h
  refine ⟨m1, hm1, ?_⟩
  simpa using hinv


/-! ## Claims on `cell`, `fill` and `square` -/

/-- C1: for `x`, `y` in `[1,300]` and `0 ≤ seed ≤ 6834366` the 32-bit `cell` with C's
truncating `/` and `%` equals the hundreds digit (floor division, non-negative
remainder) of `(rackId * y + seed) * rackId`, `rackId = x + 10`, minus 5. -/
theorem cell_eq_cellSpec (x y seed : Int) (hx1 : 1 ≤ x) (hx2 : x ≤ 300) (hy1 : 1 ≤ y)
    (hy2 : y ≤ 300) (hs1 : 0 ≤ seed) (hs2 : seed ≤ 6834366) :
    cell x y seed = (((x + 10) * y + seed) * (x + 10)) / 100 % 10 - 5 ∧
      cell x y seed = cellSpec x y seed :=
  ⟨cell_exact_on_domain hx1 hx2 hy1 hy2 hs1 hs2, cell_exact_on_domain hx1 hx2 hy1 hy2 hs1 hs2⟩

/-- Witness for C1 at the corner of the domain, `(300, 300)` with seed 6834366. -/
theorem cell_eq_cellSpec_witness :
    cell 300 300 6834366 = ((((300 : Int) + 10) * 300 + 6834366) * (300 + 10)) / 100 % 10 - 5 ∧
      cell 300 300 6834366 = cellSpec 300 300 6834366 :=
  cell_eq_cellSpec 300 300 6834366 (by decide) (by decide) (by decide) (by decide)
    (by decide) (by decide)

/-- C2 as stated fails: on the grid whose cells are all `INT_MAX`, the valid
query `square(1, 1, 2)` returns `-4` while the sum of the four cells is
`8589934588`, which no `int` holds. -/
theorem square_exact_sum_counterexample :
    (1 : Int) ≤ 2 ∧ (1 : Int) + 2 - 1 ≤ 300 ∧
      square gridIntMax 1 1 2 = some (-4) ∧
      blockSum gridIntMax 1 1 2 = 8589934588 ∧
      square gridIntMax 1 1 2 ≠ some (blockSum gridIntMax 1 1 (2 : Int).toNat) := by
  decide

/-- C2, amended: for every grid state and every valid square (`x, y ≥ 1`,
`s ≥ 1`, `x+s-1 ≤ 300`, `y+s-1 ≤ 300`), whenever the cells of the block lie in
`[-B, B]` with `s * s * B ≤ 2^31 - 1`, `square` returns exactly the sum of
`cells[y+dy][x+dx]` over `dy, dx` in `[0, s)`; and after `fill(seed)`, for every
seed, it returns the sum of `cell(x+dx, y+dy, seed)` over the block. -/
theorem square_exact_sum (g : Grid) (x y s : Int) (hs : 1 ≤ s) (hx : 1 ≤ x) (hy : 1 ≤ y)
    (hx2 : x + s - 1 ≤ 300) (hy2 : y + s - 1 ≤ 300) :
    (∀ B : Int, 0 ≤ B → s * (s * B) ≤ 2147483647 →
      (∀ dy dx : Int, 0 ≤ dy → dy < s → 0 ≤ dx → dx < s →
        -B ≤ g (y + dy) (x + dx) ∧ g (y + dy) (x + dx) ≤ B) →
      square g x y s
        = some (∑ dy ∈ Finset.range s.toNat, ∑ dx ∈ Finset.range s.toNat,
            g (y + (dy : Int)) (x + (dx : Int)))) ∧
    (∀ seed : Int, square (fill seed g) x y s
        = some (∑ dy ∈ Finset.range s.toNat, ∑ dx ∈ Finset.range s.toNat,
            cell (x + (dx : Int)) (y + (dy : Int)) seed)) := by
  constructor
  · intro B hB hBs hg
    exact (square_eq_blockSum g B x y s (by omega) (by omega) (by omega) (by omega) (by omega)
      hB hBs hg).1
  · intro seed
    have hs300 : s ≤ 300 := by omega
    have h14 : s * (s * 14) ≤ 300 * (300 * 14) :=
      mul_le_mul hs300 (by omega) (by omega) (by omega)
    have hcell : ∀ dy dx : Int, 0 ≤ dy → dy < s → 0 ≤ dx → dx < s →
        fill seed g (y + dy) (x + dx) = cell (x + dx) (y + dy) seed := by
      intro dy dx h1 h2 h3 h4
      rw [fill_apply, if_pos (by omega)]
    have h := (square_eq_blockSum (fill seed g) 14 x y s (by omega)
      (by omega) (by omega) (by omega) (by omega) (by omega) (by omega) (by
        intro dy dx h1 h2 h3 h4
        rw [hcell dy dx h1 h2 h3 h4]
        have := cell_bounds_any (x + dx) (y + dy) seed
        omega)).1
    rw [h]
    unfold blockSum
    refine congrArg some ?_
    apply Finset.sum_congr rfl
    intro dy hdy
    apply Finset.sum_congr rfl
    intro dx hdx
    have e : ((s.toNat : Nat) : Int) = s := Int.toNat_of_nonneg (by omega)
    have h1 := Finset.mem_range.mp hdy
    have h2 := Finset.mem_range.mp hdx
    exact hcell dy dx (by omega) (by omega) (by omega) (by omega)

/-- Witness for the amended C2: the 3-by-3 square in the far corner, anchor
`(298, 298)`, of the ramp grid. -/
theorem square_exact_sum_witness :
    square gridRamp 298 298 3
        = some (∑ dy ∈ Finset.range 3, ∑ dx ∈ Finset.range 3,
            gridRamp (298 + (dy : Int)) (298 + (dx : Int))) ∧
      square (fill 18 gridRamp) 298 298 3
        = some (∑ dy ∈ Finset.range 3, ∑ dx ∈ Finset.range 3,
            cell (298 + (dx : Int)) (298 + (dy : Int)) 18) :=
  ⟨(square_exact_sum gridRamp 298 298 3 (by decide) (by decide) (by decide) (by decide)
      (by decide)).1 4000 (by decide) (by decide)
      (by intro dy dx h1 h2 h3 h4; unfold gridRamp; omega),
    (square_exact_sum gridRamp 298 298 3 (by decide) (by decide) (by decide) (by decide)
      (by decide)).2 18⟩

/-- C3: after `fill(seed)` on any prior grid state, every cell with `x`, `y` in
`[1,300]` holds `cells[y][x] = cell(x, y, seed)`, and reading it succeeds. -/
theorem fill_cells (seed : Int) (g : Grid) (x y : Int) (hx1 : 1 ≤ x) (hx2 : x ≤ 300)
    (hy1 : 1 ≤ y) (hy2 : y ≤ 300) :
    fill seed g y x = cell x y seed ∧ (fill seed g).read y x = some (cell x y seed) := by
  have h : fill seed g y x = cell x y seed := by
    rw [fill_apply, if_pos ⟨hy1, hy2, hx1, hx2⟩]
  refine ⟨h, ?_⟩
  rw [read_eq_some _ (by omega) hy2 (by omega) hx2, h]

/-- Witness for C3: cell `(3, 5)` after `fill(8)` on the all-`INT_MAX` grid. -/
theorem fill_cells_witness :
    fill 8 gridIntMax 5 3 = cell 3 5 8 ∧ (fill 8 gridIntMax).read 5 3 = some (cell 3 5 8) :=
  fill_cells 8 gridIntMax 3 5 (by decide) (by decide) (by decide) (by decide)

/-- C4 as stated fails: the seed `-1000` at `(1, 1)` gives `-13`, outside
`[-5, 4]`. -/
theorem cell_range_counterexample :
    cell 1 1 (-1000) = -13 ∧ ¬ (-5 ≤ cell 1 1 (-1000) ∧ cell 1 1 (-1000) ≤ 4) := by
  decide

/-- C4, amended: for every integer seed and every `x`, `y` in `[1,300]`,
`cell(x, y, seed)` lies in `[-14, 4]`; it lies in `[-5, 4]` when
`0 ≤ seed ≤ 6834366`. -/
theorem cell_range (x y seed : Int) (hx1 : 1 ≤ x) (hx2 : x ≤ 300) (hy1 : 1 ≤ y)
    (hy2 : y ≤ 300) :
    (-14 ≤ cell x y seed ∧ cell x y seed ≤ 4) ∧
      (0 ≤ seed → seed ≤ 6834366 → -5 ≤ cell x y seed ∧ cell x y seed ≤ 4) := by
  refine ⟨cell_bounds_any x y seed, ?_⟩
  intro hs1 hs2
  rw [cell_exact_on_domain hx1 hx2 hy1 hy2 hs1 hs2]
  unfold cellSpec
  omega

/-- Witness for the amended C4 at `(1, 1)`, for the seeds `-1000` and `8`. -/
theorem cell_range_witness :
    (-14 ≤ cell 1 1 (-1000) ∧ cell 1 1 (-1000) ≤ 4) ∧ (-5 ≤ cell 1 1 8 ∧ cell 1 1 8 ≤ 4) :=
  ⟨(cell_range 1 1 (-1000) (by decide) (by decide) (by decide) (by decide)).1,
    (cell_range 1 1 8 (by decide) (by decide) (by decide) (by decide)).2 (by decide)
      (by decide)⟩

/-- C9 as stated fails: with seed 18 the cell `(3, 5)` is not 4. -/
theorem cell_3_5_seed_18_counterexample : cell 3 5 18 ≠ 4 := by
  decide

/-- C9, amended: for seed 18, `cell(3, 5, 18) = -5`; the value 4 is the one of
seed 8, `cell(3, 5, 8) = 4`. -/
theorem cell_3_5_fixture : cell 3 5 18 = -5 ∧ cell 3 5 8 = 4 := by
  decide

/-- C10: the remaining formula fixtures, `cell(122, 79, 57) = -5`,
`cell(217, 196, 39) = 0` and `cell(101, 153, 71) = 4`. -/
theorem cell_fixtures : cell 122 79 57 = -5 ∧ cell 217 196 39 = 0 ∧ cell 101 153 71 = 4 := by
  decide


/-! ## Claims on the two searches -/

theorem cell_seed_neg_le {x y : Int} (hx1 : 1 ≤ x) (hx2 : x ≤ 300) (hy1 : 1 ≤ y)
    (hy2 : y ≤ 300) : cell x y (-100000) ≤ -5 := by
  have a1 : 0 ≤ (x + 10) * y := by positivity
  have a2 : (x + 10) * y ≤ 310 * 300 := mul_le_mul (by omega) hy2 (by omega) (by omega)
  have a3 : ((x + 10) * y + -100000) * (x + 10) ≤ 0 :=
    mul_nonpos_of_nonpos_of_nonneg (by omega) (by omega)
  have a4 : 0 ≤ ((x + 10) * y + -100000 + 100000) * (x + 10) :=
    mul_nonneg (by omega) (by omega)
  have a5 : -31000000 ≤ ((x + 10) * y + -100000) * (x + 10) := by nlinarith
  have r1 : wrap32 (x + 10) = x + 10 := wrap32_of_range (by omega) (by omega)
  have r2 : wrap32 ((x + 10) * y) = (x + 10) * y := wrap32_of_range (by omega) (by omega)
  have r3 : wrap32 ((x + 10) * y + -100000) = (x + 10) * y + -100000 :=
    wrap32_of_range (by omega) (by omega)
  have r4 : wrap32 (((x + 10) * y + -100000) * (x + 10))
      = ((x + 10) * y + -100000) * (x + 10) := wrap32_of_range (by omega) (by omega)
  apply cell_le_of_value_nonpos
  rw [r1, r2, r3, r4]
  exact a3

theorem squareVal_seed_neg_le (g : Grid) {x y : Int} (ha : Anchor1 x y) :
    squareVal (fill (-100000) g) x y 3 ≤ -45 := by
  have hv := square_anchor1 (fill (-100000) g) ha
  unfold Anchor1 at ha
  have hcell : ∀ dy dx : Int, 0 ≤ dy → dy < 3 → 0 ≤ dx → dx < 3 →
      fill (-100000) g (y + dy) (x + dx) = cell (x + dx) (y + dy) (-100000) := by
    intro dy dx h1 h2 h3 h4
    rw [fill_apply, if_pos (by omega)]
  have hb := (square_eq_blockSum (fill (-100000) g) 14 x y 3
    (by omega) (by omega) (by omega) (by omega) (by omega) (by omega) (by omega) (by
      intro dy dx h1 h2 h3 h4
      rw [hcell dy dx h1 h2 h3 h4]
      have := cell_bounds_any (x + dx) (y + dy) (-100000)
      omega)).1
  rw [hv] at hb
  rw [Option.some.inj hb]
  have e : (3 : Int).toNat = 3 := rfl
  rw [e]
  have hc : ∀ dy dx : Int, 0 ≤ dy → dy < 3 → 0 ≤ dx → dx < 3 →
      fill (-100000) g (y + dy) (x + dx) ≤ -5 := by
    intro dy dx h1 h2 h3 h4
    rw [hcell dy dx h1 h2 h3 h4]
    exact cell_seed_neg_le (by omega) (by omega) (by omega) (by omega)
  have c00 := hc 0 0 (by omega) (by omega) (by omega) (by omega)
  have c01 := hc 0 1 (by omega) (by omega) (by omega) (by omega)
  have c02 := hc 0 2 (by omega) (by omega) (by omega) (by omega)
  have c10 := hc 1 0 (by omega) (by omega) (by omega) (by omega)
  have c11 := hc 1 1 (by omega) (by omega) (by omega) (by omega)
  have c12 := hc 1 2 (by omega) (by omega) (by omega) (by omega)
  have c20 := hc 2 0 (by omega) (by omega) (by omega) (by omega)
  have c21 := hc 2 1 (by omega) (by omega) (by omega) (by omega)
  have c22 := hc 2 2 (by omega) (by omega) (by omega) (by omega)
  unfold blockSum
  simp only [Finset.sum_range_succ, Finset.sum_range_zero, Nat.cast_zero, Nat.cast_one,
    Nat.cast_ofNat, zero_add] 
  omega

/-- C5 as stated fails: for the seed `-100000` every 3-by-3 sum is at most
`-45`, yet the scan ends with the recorded value 0, which no anchor attains. -/
theorem part1_maximum_counterexample :
    ∃ m, part1_scan (fill (-100000) Grid.zero) = some m ∧ m.value = 0 ∧
      ∀ x y : Int, 1 ≤ x → x ≤ 298 → 1 ≤ y → y ≤ 298 →
        ∃ v, square (fill (-100000) Grid.zero) x y 3 = some v ∧ v ≤ -45 := by
  obtain ⟨m, hm, hA, hB⟩ := part1_scan_inv (fill (-100000) Grid.zero)
  refine ⟨m, hm, ?_, ?_⟩
  · rcases hB with h0 | ⟨b1, _, b3, b4, _⟩
    · rw [h0]
    · have := squareVal_seed_neg_le Grid.zero b1
      omega
  · intro x y h1 h2 h3 h4
    have ha : Anchor1 x y := ⟨h1, h2, h3, h4⟩
    exact ⟨_, square_anchor1 _ ha, squareVal_seed_neg_le Grid.zero ha⟩

/-- C5, amended: for every seed and prior grid state, after `fill(seed)` the
part-1 scan completes and the recorded best value is the maximum of 0 and the
sums `square(x, y, 3)` over all anchors `x`, `y` in `[1,298]`: it is at least 0
and at least every sum, and it is 0 or the sum at some anchor. -/
theorem part1_maximum (seed : Int) (g : Grid) :
    ∃ m, part1_scan (fill seed g) = some m ∧ 0 ≤ m.value ∧
      (∀ x y : Int, 1 ≤ x → x ≤ 298 → 1 ≤ y → y ≤ 298 →
        ∃ v, square (fill seed g) x y 3 = some v ∧ v ≤ m.value) ∧
      (m.value = 0 ∨
        ∃ x y : Int, 1 ≤ x ∧ x ≤ 298 ∧ 1 ≤ y ∧ y ≤ 298 ∧
          square (fill seed g) x y 3 = some m.value) := by
  obtain ⟨m, hm, hinv⟩ := part1_scan_inv (fill seed g)
  have h0 := inv1_value_nonneg hinv
  obtain ⟨hA, hB⟩ := hinv
  refine ⟨m, hm, h0, ?_, ?_⟩
  · intro x y h1 h2 h3 h4
    have ha : Anchor1 x y := ⟨h1, h2, h3, h4⟩
    exact ⟨_, square_anchor1 _ ha, hA x y ha (by unfold Before1; omega)⟩
  · rcases hB with h0 | ⟨b1, _, _, b4, _⟩
    · left; rw [h0]
    · right
      refine ⟨m.x, m.y, b1.1, b1.2.1, b1.2.2.1, b1.2.2.2, ?_⟩
      rw [square_anchor1 _ b1, b4]

/-- C6: for every grid, the part-2 scan completes and its recorded best value is
at least `square(x, y, s)` for every size `s` in `[1,300]` and every anchor
`x`, `y` in `[1, 301-s]`. -/
theorem part2_value_ge (g : Grid) (x y s : Int) (hs1 : 1 ≤ s) (hs2 : s ≤ 300) (hx1 : 1 ≤ x)
    (hx2 : x ≤ 301 - s) (hy1 : 1 ≤ y) (hy2 : y ≤ 301 - s) :
    ∃ m v, part2_scan g = some m ∧ square g x y s = some v ∧ v ≤ m.value := by
  obtain ⟨m, hm, hA, _⟩ := part2_scan_inv g
  have ha : Anchor2 x y s := ⟨hs1, hs2, hx1, hx2, hy1, hy2⟩
  exact ⟨m, _, hm, square_anchor2 g ha, hA x y s ha (by unfold Before2; omega)⟩

/-- Witness for C6: the size-3 square at `(6, 4)` of the one-spot grid. -/
theorem part2_value_ge_witness :
    ∃ m v, part2_scan gridSpot = some m ∧ square gridSpot 6 4 3 = some v ∧ v ≤ m.value :=
  part2_value_ge gridSpot 6 4 3 (by decide) (by decide) (by decide) (by decide) (by decide)
    (by decide)

/-- C7: for every grid in which some anchor in `[1,298] x [1,298]` has a
strictly positive 3-by-3 sum, the anchor reported by part 1 is a scanned
anchor whose sum is the recorded value, every anchor's sum is at most that
value, and every anchor earlier in row-major order (`y' < y`, or `y' = y` and
`x' < x`) has a strictly smaller sum. -/
theorem part1_first_maximum (g : Grid)
    (hpos : ∃ x y v : Int, 1 ≤ x ∧ x ≤ 298 ∧ 1 ≤ y ∧ y ≤ 298 ∧
      square g x y 3 = some v ∧ 0 < v) :
    ∃ m, part1_scan g = some m ∧
      (1 ≤ m.x ∧ m.x ≤ 298 ∧ 1 ≤ m.y ∧ m.y ≤ 298) ∧
      square g m.x m.y 3 = some m.value ∧
      ∀ x1 y1 : Int, 1 ≤ x1 → x1 ≤ 298 → 1 ≤ y1 → y1 ≤ 298 →
        ∃ v, square g x1 y1 3 = some v ∧ v ≤ m.value ∧
          ((y1 < m.y ∨ (y1 = m.y ∧ x1 < m.x)) → v < m.value) := by
  obtain ⟨m, hm, hA, hB⟩ := part1_scan_inv g
  obtain ⟨x, y, v, p1, p2, p3, p4, p5, p6⟩ := hpos
  have hp : Anchor1 x y := ⟨p1, p2, p3, p4⟩
  have hle := hA x y hp (by unfold Before1; omega)
  rw [square_anchor1 g hp] at p5
  have hv : squareVal g x y 3 = v := Option.some.inj p5
  rcases hB with h0 | ⟨b1, _, _, b4, b5⟩
  · rw [h0] at hle
    have : (({ value := 0, x := 0, y := 0 } : Max1).value) = 0 := rfl
    omega
  · refine ⟨m, hm, b1, ?_, ?_⟩
    · rw [square_anchor1 g b1, b4]
    · intro x1 y1 h1 h2 h3 h4
      have ha : Anchor1 x1 y1 := ⟨h1, h2, h3, h4⟩
      exact ⟨_, square_anchor1 g ha, hA x1 y1 ha (by unfold Before1; omega),
        fun hb => b5 x1 y1 ha hb⟩

/-- Witness for C7: the one-spot grid, where the anchor `(7, 5)` has sum 1. -/
theorem part1_first_maximum_witness :
    ∃ m, part1_scan gridSpot = some m ∧
      (1 ≤ m.x ∧ m.x ≤ 298 ∧ 1 ≤ m.y ∧ m.y ≤ 298) ∧
      square gridSpot m.x m.y 3 = some m.value ∧
      ∀ x1 y1 : Int, 1 ≤ x1 → x1 ≤ 298 → 1 ≤ y1 → y1 ≤ 298 →
        ∃ v, square gridSpot x1 y1 3 = some v ∧ v ≤ m.value ∧
          ((y1 < m.y ∨ (y1 = m.y ∧ x1 < m.x)) → v < m.value) :=
  part1_first_maximum gridSpot ⟨7, 5, 1, by decide⟩

/-- C8: for every grid in which some valid square has a strictly positive sum,
the `(x, y, size)` reported by part 2 is a valid square whose sum is the
recorded value, no valid square has a greater sum, and every valid square of
equal sum has a size no larger, at equal size a row `y` no smaller, and at
equal size and row a column `x` no smaller. -/
theorem part2_tie_break (g : Grid)
    (hpos : ∃ x y s v : Int, 1 ≤ s ∧ s ≤ 300 ∧ 1 ≤ x ∧ x ≤ 301 - s ∧ 1 ≤ y ∧ y ≤ 301 - s ∧
      square g x y s = some v ∧ 0 < v) :
    ∃ m, part2_scan g = some m ∧
      (1 ≤ m.size ∧ m.size ≤ 300 ∧ 1 ≤ m.x ∧ m.x ≤ 301 - m.size ∧
        1 ≤ m.y ∧ m.y ≤ 301 - m.size) ∧
      square g m.x m.y m.size = some m.value ∧
      ∀ x1 y1 s1 : Int, 1 ≤ s1 → s1 ≤ 300 → 1 ≤ x1 → x1 ≤ 301 - s1 → 1 ≤ y1 →
        y1 ≤ 301 - s1 →
        ∃ v, square g x1 y1 s1 = some v ∧ v ≤ m.value ∧
          (v = m.value →
            s1 ≤ m.size ∧ (s1 = m.size → m.y ≤ y1 ∧ (y1 = m.y → m.x ≤ x1))) := by
  obtain ⟨m, hm, hA, hB⟩ := part2_scan_inv g
  obtain ⟨x, y, s, v, p1, p2, p3, p4, p5, p6, p7, p8⟩ := hpos
  have hp : Anchor2 x y s := ⟨p1, p2, p3, p4, p5, p6⟩
  have hle := hA x y s hp (by unfold Before2; omega)
  rw [square_anchor2 g hp] at p7
  have hv : squareVal g x y s = v := Option.some.inj p7
  rcases hB with h0 | ⟨b1, _, _, b4, b5⟩
  · rw [h0] at hle
    have : (({ value := 0, x := 0, y := 0, size := 0 } : Max2).value) = 0 := rfl
    omega
  · refine ⟨m, hm, b1, ?_, ?_⟩
    · rw [square_anchor2 g b1, b4]
    · intro x1 y1 s1 h1 h2 h3 h4 h5 h6
      have ha : Anchor2 x1 y1 s1 := ⟨h1, h2, h3, h4, h5, h6⟩
      refine ⟨_, square_anchor2 g ha, hA x1 y1 s1 ha (by unfold Before2; omega), ?_⟩
      intro he
      by_cases hb : Before2 x1 y1 s1 m.x m.y m.size
      · have := b5 x1 y1 s1 ha hb
        omega
      · unfold Before2 Before1 at hb
        omega

/-- Witness for C8: the one-spot grid, where the size-1 square at `(7, 5)` has
sum 1. -/
theorem part2_tie_break_witness :
    ∃ m, part2_scan gridSpot = some m ∧
      (1 ≤ m.size ∧ m.size ≤ 300 ∧ 1 ≤ m.x ∧ m.x ≤ 301 - m.size ∧
        1 ≤ m.y ∧ m.y ≤ 301 - m.size) ∧
      square gridSpot m.x m.y m.size = some m.value ∧
      ∀ x1 y1 s1 : Int, 1 ≤ s1 → s1 ≤ 300 → 1 ≤ x1 → x1 ≤ 301 - s1 → 1 ≤ y1 →
        y1 ≤ 301 - s1 →
        ∃ v, square gridSpot x1 y1 s1 = some v ∧ v ≤ m.value ∧
          (v = m.value →
            s1 ≤ m.size ∧ (s1 = m.size → m.y ≤ y1 ∧ (y1 = m.y → m.x ≤ x1))) :=
  part2_tie_break gridSpot ⟨7, 5, 1, 1, by decide⟩

/-! ## Range of `square` and absence of overflow -/

theorem sum_range_bounds (f : ℕ → Int) (lo hi : Int) (n : ℕ)
    (h : ∀ k, k < n → lo ≤ f k ∧ f k ≤ hi) :
    n * lo ≤ ∑ k ∈ Finset.range n, f k ∧ ∑ k ∈ Finset.range n, f k ≤ n * hi := by
  induction n with
  | zero => simp
  | succ n ih =>
    have h1 := ih (fun k hk => h k (Nat.lt_succ_of_lt hk))
    have h2 := h n (Nat.lt_succ_self n)
    rw [Finset.sum_range_succ]
    have e1 : ((n + 1 : ℕ) : Int) * lo = n * lo + lo := by push_cast; ring
    have e2 : ((n + 1 : ℕ) : Int) * hi = n * hi + hi := by push_cast; ring
    rw [e1, e2]
    omega

theorem blockSum_bounds (f : Int → Int → Int) (lo hi : Int) (x y : Int) (n : ℕ)
    (h : ∀ dy dx : ℕ, dy < n → dx < n →
      lo ≤ f (y + dy) (x + dx) ∧ f (y + dy) (x + dx) ≤ hi) :
    n * (n * lo) ≤ blockSum f x y n ∧ blockSum f x y n ≤ n * (n * hi) := by
  unfold blockSum
  apply sum_range_bounds
  intro dy hdy
  apply sum_range_bounds
  intro dx hdx
  exact h dy dx hdy hdx

/-- One row of the overflow-checked accumulation. -/
theorem row_checked_exact (g : Grid) (y1 : Int) (B : Int) (n : ℕ) (x t T : Int)
    (hy : 0 ≤ y1 ∧ y1 ≤ 300) (hx : 0 ≤ x ∧ x + n ≤ 301)
    (hf : ∀ k : ℕ, k < n → -B ≤ g y1 (x + k) ∧ g y1 (x + k) ≤ B)
    (ht : -T ≤ t ∧ t ≤ T) (hT : T + n * B ≤ 2147483647) (hB : 0 ≤ B) :
    forUpM (fun x1 total => (g.read y1 x1).bind (fun c => addChecked total c)) n x t
      = some (t + ∑ k ∈ Finset.range n, g y1 (x + (k : Int))) := by
  have h := forUpM_inv (fun x1 total => (g.read y1 x1).bind (fun c => addChecked total c))
    (fun k s => s = t + ∑ j ∈ Finset.range k, g y1 (x + (j : Int)) ∧
      -(T + k * B) ≤ s ∧ s ≤ T + k * B) n x t
    (by simp; omega)
    (by
      intro k s hk hP
      obtain ⟨hs, hlo, hhi⟩ := hP
      have hfk := hf k hk
      have hkB : (k : Int) * B + B ≤ n * B := by
        have : ((k : Int) + 1) * B ≤ n * B :=
          mul_le_mul_of_nonneg_right (by exact_mod_cast hk) hB
        linarith
      have hk0 : 0 ≤ (k : Int) * B := mul_nonneg (Int.ofNat_nonneg k) hB
      have hkn : (k : Int) < n := by exact_mod_cast hk
      beta_reduce
      rw [read_eq_some g hy.1 hy.2 (by omega) (by omega)]
      simp only [Option.some_bind, addChecked]
      rw [if_pos ⟨by omega, by omega⟩]
      refine ⟨_, rfl, ?_, ?_, ?_⟩
      · rw [Finset.sum_range_succ, hs]; ring
      · have e1 : ((k + 1 : ℕ) : Int) * B = k * B + B := by push_cast; ring
        rw [e1]; omega
      · have e1 : ((k + 1 : ℕ) : Int) * B = k * B + B := by push_cast; ring
        rw [e1]; omega)
  obtain ⟨s1, hs1, hP⟩ := h
  rw [hs1, hP.1]

/-- With every cell of the block of magnitude at most `B` and `n * n * B`
inside the 32-bit range, the overflow-checked `square` succeeds with the exact
block sum. -/
theorem square_checked_eq_blockSum (g : Grid) (B : Int) (x y size : Int) (hx : 0 ≤ x)
    (hy : 0 ≤ y) (hs : 0 ≤ size) (hx2 : x + size ≤ 301) (hy2 : y + size ≤ 301) (hB : 0 ≤ B)
    (hBs : size * (size * B) ≤ 2147483647)
    (hg : ∀ dy dx : Int, 0 ≤ dy → dy < size → 0 ≤ dx → dx < size →
      -B ≤ g (y + dy) (x + dx) ∧ g (y + dy) (x + dx) ≤ B) :
    square_checked g x y size = some (blockSum g x y size.toNat) := by
  have ex : wrap32 (x + size) = x + size := wrap32_of_range (by omega) (by omega)
  have ey : wrap32 (y + size) = y + size := wrap32_of_range (by omega) (by omega)
  have cx : (x + size - x).toNat = size.toNat := by rw [add_sub_cancel_left]
  have cy : (y + size - y).toNat = size.toNat := by rw [add_sub_cancel_left]
  have en : ((size.toNat : ℕ) : Int) = size := Int.toNat_of_nonneg hs
  unfold square_checked forLtM
  rw [ex, ey, cx, cy]
  generalize hn : size.toNat = n at en
  have hnB : 0 ≤ (n : Int) * B := mul_nonneg (Int.ofNat_nonneg n) hB
  have hBn : (n : Int) * (n * B) ≤ 2147483647 := by rw [en]; exact hBs
  have h := forUpM_inv
    (fun y1 total => forUpM (fun x1 total =>
      (g.read y1 x1).bind (fun c => addChecked total c)) n x total)
    (fun k t => t = ∑ dy ∈ Finset.range k, ∑ dx ∈ Finset.range n,
        g (y + (dy : Int)) (x + (dx : Int)) ∧
      -(k * (n * B)) ≤ t ∧ t ≤ k * (n * B)) n y 0
    (by simp)
    (by
      intro k t hk hP
      obtain ⟨ht, hlo, hhi⟩ := hP
      have hkn : (k : Int) < n := by exact_mod_cast hk
      have hkB : (k : Int) * (n * B) + n * B ≤ n * (n * B) := by
        have : ((k : Int) + 1) * (n * B) ≤ n * (n * B) :=
          mul_le_mul_of_nonneg_right (by omega) hnB
        linarith
      have hk0 : 0 ≤ (k : Int) * (n * B) := mul_nonneg (Int.ofNat_nonneg k) hnB
      have hrow := row_checked_exact g (y + k) B n x t (k * (n * B)) (by omega) (by omega)
        (fun j hj => hg k j (by omega) (by omega) (by omega) (by omega)) ⟨hlo, hhi⟩
        (by omega) hB
      have hb := sum_range_bounds (fun j => g (y + k) (x + (j : Int))) (-B) B n
        (fun j hj => hg k j (by omega) (by omega) (by omega) (by omega))
      beta_reduce at hb ⊢
      rw [hrow]
      refine ⟨_, rfl, ?_, ?_, ?_⟩
      · rw [Finset.sum_range_succ, ht]
      · have e1 : ((k + 1 : ℕ) : Int) * (n * B) = k * (n * B) + n * B := by push_cast; ring
        have e2 : (n : Int) * -B = -(n * B) := by ring
        rw [e1]; rw [e2] at hb; omega
      · have e1 : ((k + 1 : ℕ) : Int) * (n * B) = k * (n * B) + n * B := by push_cast; ring
        rw [e1]; omega)
  obtain ⟨s1, hs1, hP⟩ := h
  rw [hs1, hP.1]
  rfl

/-- C13: for every grid whose cells at all `(x, y)` in `[1,300] x [1,300]` lie
in `[-5, 4]` and every valid square (`size ≥ 1`, `x, y ≥ 1`, `x+size-1 ≤ 300`,
`y+size-1 ≤ 300`), `square` returns the exact block sum, which lies in
`[-5*size^2, 4*size^2]` and in `[-450000, 450000]`, and the 32-bit
accumulation never overflows (the overflow-checked `square` succeeds with the
same value). -/
theorem square_range (g : Grid) (x y size : Int)
    (hg : ∀ x1 y1 : Int, 1 ≤ x1 → x1 ≤ 300 → 1 ≤ y1 → y1 ≤ 300 →
      -5 ≤ g y1 x1 ∧ g y1 x1 ≤ 4)
    (hs : 1 ≤ size) (hx : 1 ≤ x) (hy : 1 ≤ y) (hx2 : x + size - 1 ≤ 300)
    (hy2 : y + size - 1 ≤ 300) :
    ∃ v, square g x y size = some v ∧ square_checked g x y size = some v ∧
      v = blockSum g x y size.toNat ∧
      -5 * size ^ 2 ≤ v ∧ v ≤ 4 * size ^ 2 ∧ -450000 ≤ v ∧ v ≤ 450000 := by
  have hs300 : size ≤ 300 := by omega
  have h5 : size * (size * 5) ≤ 300 * (300 * 5) :=
    mul_le_mul hs300 (by omega) (by omega) (by omega)
  have hss : size * size ≤ 300 * 300 := mul_le_mul hs300 hs300 (by omega) (by omega)
  have hss0 : 0 ≤ size * size := mul_nonneg (by omega) (by omega)
  have hcell : ∀ dy dx : Int, 0 ≤ dy → dy < size → 0 ≤ dx → dx < size →
      -5 ≤ g (y + dy) (x + dx) ∧ g (y + dy) (x + dx) ≤ 4 :=
    fun dy dx h1 h2 h3 h4 => hg _ _ (by omega) (by omega) (by omega) (by omega)
  have hcell5 : ∀ dy dx : Int, 0 ≤ dy → dy < size → 0 ≤ dx → dx < size →
      -5 ≤ g (y + dy) (x + dx) ∧ g (y + dy) (x + dx) ≤ 5 := by
    intro dy dx h1 h2 h3 h4
    have := hcell dy dx h1 h2 h3 h4
    omega
  have h1 := (square_eq_blockSum g 5 x y size (by omega) (by omega) (by omega) (by omega)
    (by omega) (by omega) (by omega) hcell5).1
  have h2 := square_checked_eq_blockSum g 5 x y size (by omega) (by omega) (by omega)
    (by omega) (by omega) (by omega) (by omega) hcell5
  have en : ((size.toNat : ℕ) : Int) = size := Int.toNat_of_nonneg (by omega)
  have hb := blockSum_bounds g (-5) 4 x y size.toNat
    (fun dy dx hdy hdx => hcell dy dx (by omega) (by omega) (by omega) (by omega))
  rw [en] at hb
  refine ⟨_, h1, h2, rfl, ?_, ?_, ?_, ?_⟩
  · have e : -5 * size ^ 2 = size * (size * -5) := by ring
    rw [e]; exact hb.1
  · have e : 4 * size ^ 2 = size * (size * 4) := by ring
    rw [e]; exact hb.2
  · have e : size * (size * -5) = -(5 * (size * size)) := by ring
    rw [e] at hb; omega
  · have e : size * (size * 4) = 4 * (size * size) := by ring
    rw [e] at hb; omega

/-- Witness for C13: the 300-by-300 square at `(1, 1)` of the zero grid. -/
theorem square_range_witness :
    ∃ v, square Grid.zero 1 1 300 = some v ∧ square_checked Grid.zero 1 1 300 = some v ∧
      v = blockSum Grid.zero 1 1 (300 : Int).toNat ∧
      -5 * (300 : Int) ^ 2 ≤ v ∧ v ≤ 4 * (300 : Int) ^ 2 ∧ -450000 ≤ v ∧ v ≤ 450000 :=
  square_range Grid.zero 1 1 300
    (fun _ _ _ _ _ _ => ⟨by unfold Grid.zero; omega, by unfold Grid.zero; omega⟩)
    (by decide) (by decide)
    (by decide) (by decide) (by decide)

/-! ## Read traces -/

theorem forUp_append_cat {α : Type} (F : Int → List α) (n : ℕ) (i : Int) (acc : List α) :
    forUp (fun j acc => acc ++ F j) n i acc = acc ++ catFrom F n i := by
  induction n generalizing i acc with
  | zero => simp [forUp, catFrom]
  | succ n ih => rw [forUp_succ, ih, catFrom, List.append_assoc]

theorem forUpM_eq_foldlM {σ α : Type} (body : Int → σ → Option σ) (step : σ → α → Option σ)
    (F : Int → List α) (h : ∀ j s, body j s = List.foldlM step s (F j)) (n : ℕ) (i : Int)
    (s : σ) : forUpM body n i s = List.foldlM step s (catFrom F n i) := by
  induction n generalizing i s with
  | zero => rfl
  | succ n ih =>
    rw [forUpM, catFrom, List.foldlM_append, h]
    cases List.foldlM step s (F i) with
    | none => rfl
    | some s1 => exact ih (i + 1) s1

theorem mem_catFrom {α : Type} (F : Int → List α) (n : ℕ) (i : Int) (p : α) :
    p ∈ catFrom F n i ↔ ∃ k : ℕ, k < n ∧ p ∈ F (i + k) := by
  induction n generalizing i with
  | zero => simp [catFrom]
  | succ n ih =>
    rw [catFrom, List.mem_append, ih]
    constructor
    · rintro (h | ⟨k, hk, h⟩)
      · exact ⟨0, Nat.succ_pos n, by simpa using h⟩
      · refine ⟨k + 1, Nat.succ_lt_succ hk, ?_⟩
        have e : i + ((k + 1 : ℕ) : Int) = i + 1 + (k : Int) := by push_cast; ring
        rw [e]; exact h
    · rintro ⟨k, hk, h⟩
      cases k with
      | zero => left; simpa using h
      | succ k =>
        right
        refine ⟨k, Nat.lt_of_succ_lt_succ hk, ?_⟩
        have e : i + ((k + 1 : ℕ) : Int) = i + 1 + (k : Int) := by push_cast; ring
        rw [e] at h; exact h

theorem square_reads_eq (x y size : Int) :
    square_reads x y size =
      catFrom (fun y1 => catFrom (fun x1 => [(y1, x1)]) (wrap32 (x + size) - x).toNat x)
        (wrap32 (y + size) - y).toNat y := by
  unfold square_reads forLt
  have h : (fun (y1 : Int) (acc : List (Int × Int)) =>
      forUp (fun x1 acc => acc ++ [(y1, x1)]) (wrap32 (x + size) - x).toNat x acc)
      = fun y1 acc => acc ++ catFrom (fun x1 => [(y1, x1)]) (wrap32 (x + size) - x).toNat x := by
    funext y1 acc
    exact forUp_append_cat (fun x1 => [(y1, x1)]) _ x acc
  rw [h, forUp_append_cat]
  rfl

/-- The result of `square` is the fold of its reads over `square_reads`. -/
theorem square_eq_fold_reads (g : Grid) (x y size : Int) :
    square g x y size =
      (square_reads x y size).foldlM
        (fun total p => (g.read p.1 p.2).map (fun c => wrap32 (total + c))) 0 := by
  rw [square_reads_eq]
  unfold square forLtM
  apply forUpM_eq_foldlM
  intro y1 t
  apply forUpM_eq_foldlM
  intro x1 t1
  cases h : g.read y1 x1 <;> simp [List.foldlM, h]

/-- For a square inside the populated block every read of `square` is inside it. -/
theorem square_reads_populated {x y size : Int} (hs : 0 ≤ size) (hx : 1 ≤ x) (hy : 1 ≤ y)
    (hx2 : x + size ≤ 301) (hy2 : y + size ≤ 301) (p : Int × Int)
    (hp : p ∈ square_reads x y size) :
    1 ≤ p.1 ∧ p.1 ≤ 300 ∧ 1 ≤ p.2 ∧ p.2 ≤ 300 := by
  have ex : wrap32 (x + size) = x + size := wrap32_of_range (by omega) (by omega)
  have ey : wrap32 (y + size) = y + size := wrap32_of_range (by omega) (by omega)
  rw [square_reads_eq, ex, ey, mem_catFrom] at hp
  obtain ⟨k, hk, hp⟩ := hp
  rw [mem_catFrom] at hp
  obtain ⟨j, hj, hp⟩ := hp
  rw [List.mem_singleton] at hp
  subst hp
  simp only
  omega

/-- C14: every index pair read by `square` during the part-1 scan (anchors
`x`, `y` in `[1,298]`, size 3) and during the part-2 scan (size `s` in
`[1,300]`, anchors in `[1, 301-s]`) has row and column in `[1,300]`; each such
read returns a value, each `square` call returns a value, and both scans
complete.  `square_reads` is the trace of `square`: `square` is the fold of
the reads over it. -/
theorem scan_reads_in_range (g : Grid) :
    (∀ x y size : Int, square g x y size =
      (square_reads x y size).foldlM
        (fun total p => (g.read p.1 p.2).map (fun c => wrap32 (total + c))) 0) ∧
    (∀ x y : Int, 1 ≤ x → x ≤ 298 → 1 ≤ y → y ≤ 298 →
      (∀ p ∈ square_reads x y 3,
        (1 ≤ p.1 ∧ p.1 ≤ 300 ∧ 1 ≤ p.2 ∧ p.2 ≤ 300) ∧ g.read p.1 p.2 = some (g p.1 p.2)) ∧
      (square g x y 3).isSome = true) ∧
    (∀ s x y : Int, 1 ≤ s → s ≤ 300 → 1 ≤ x → x ≤ 301 - s → 1 ≤ y → y ≤ 301 - s →
      (∀ p ∈ square_reads x y s,
        (1 ≤ p.1 ∧ p.1 ≤ 300 ∧ 1 ≤ p.2 ∧ p.2 ≤ 300) ∧ g.read p.1 p.2 = some (g p.1 p.2)) ∧
      (square g x y s).isSome = true) ∧
    (part1_scan g).isSome = true ∧ (part2_scan g).isSome = true := by
  refine ⟨square_eq_fold_reads g, ?_, ?_, ?_, ?_⟩
  · intro x y h1 h2 h3 h4
    refine ⟨?_, ?_⟩
    · intro p hp
      have h := square_reads_populated (by omega) h1 h3 (by omega) (by omega) p hp
      exact ⟨h, read_eq_some g (by omega) (by omega) (by omega) (by omega)⟩
    · rw [square_anchor1 g ⟨h1, h2, h3, h4⟩]; rfl
  · intro s x y h1 h2 h3 h4 h5 h6
    refine ⟨?_, ?_⟩
    · intro p hp
      have h := square_reads_populated (by omega) h3 h5 (by omega) (by omega) p hp
      exact ⟨h, read_eq_some g (by omega) (by omega) (by omega) (by omega)⟩
    · rw [square_anchor2 g ⟨h1, h2, h3, h4, h5, h6⟩]; rfl
  · obtain ⟨m, hm, _⟩ := part1_scan_inv g
    rw [hm]; rfl
  · obtain ⟨m, hm, _⟩ := part2_scan_inv g
    rw [hm]; rfl

/-! ## Intermediates of `cell` -/

/-- C20: for `x`, `y` in `[1,300]` and `0 ≤ seed ≤ 6834366` the intermediates
of `cell` (`rackId`, `rackId*y`, `rackId*y + seed` and the product with
`rackId`) lie in `[0, 2^31 - 1]`, so the 32-bit `cell` equals the exact
integer computation; the bound is tight: for seed 6834367 at `(300, 300)` the
exact product exceeds `2^31 - 1` and the two computations differ. -/
theorem cell_no_overflow (x y seed : Int) (hx1 : 1 ≤ x) (hx2 : x ≤ 300) (hy1 : 1 ≤ y)
    (hy2 : y ≤ 300) (hs1 : 0 ≤ seed) (hs2 : seed ≤ 6834366) :
    (0 ≤ x + 10 ∧ x + 10 ≤ 2147483647) ∧
    (0 ≤ (x + 10) * y ∧ (x + 10) * y ≤ 2147483647) ∧
    (0 ≤ (x + 10) * y + seed ∧ (x + 10) * y + seed ≤ 2147483647) ∧
    (0 ≤ ((x + 10) * y + seed) * (x + 10) ∧
      ((x + 10) * y + seed) * (x + 10) ≤ 2147483647) ∧
    cell x y seed = cell_exact x y seed ∧
    (((300 : Int) + 10) * 300 + 6834367) * (300 + 10) > 2147483647 ∧
    cell 300 300 6834367 ≠ cell_exact 300 300 6834367 := by
  obtain ⟨a1, a2, a3, a4⟩ := cell_value_bounds hx1 hx2 hy1 hy2 hs1 hs2
  refine ⟨⟨by omega, by omega⟩, ⟨a1, by omega⟩, ⟨by omega, by omega⟩, ⟨a3, by omega⟩, ?_,
    by decide, by decide⟩
  have r1 : wrap32 (x + 10) = x + 10 := wrap32_of_range (by omega) (by omega)
  have r2 : wrap32 ((x + 10) * y) = (x + 10) * y := wrap32_of_range (by omega) (by omega)
  have r3 : wrap32 ((x + 10) * y + seed) = (x + 10) * y + seed :=
    wrap32_of_range (by omega) (by omega)
  have r4 : wrap32 (((x + 10) * y + seed) * (x + 10)) = ((x + 10) * y + seed) * (x + 10) :=
    wrap32_of_range (by omega) (by omega)
  unfold cell cell_exact
  simp only [r1, r2, r3, r4]
  have h := tmod_ten_bounds (Int.tdiv (((x + 10) * y + seed) * (x + 10)) 100)
  exact wrap32_of_range (by omega) (by omega)

/-- Witness for C20 at the corner `(300, 300)` with the largest seed 6834366. -/
theorem cell_no_overflow_witness :
    (0 ≤ ((300 : Int) + 10) * 300 + 6834366 ∧
      ((300 : Int) + 10) * 300 + 6834366 ≤ 2147483647) ∧
    cell 300 300 6834366 = cell_exact 300 300 6834366 :=
  ⟨(cell_no_overflow 300 300 6834366 (by decide) (by decide) (by decide) (by decide)
      (by decide) (by decide)).2.2.1,
    (cell_no_overflow 300 300 6834366 (by decide) (by decide) (by decide) (by decide)
      (by decide) (by decide)).2.2.2.2.1⟩

/-! ## `print_square` -/

theorem forUp_append_map {α : Type} (F : Int → α) (n : ℕ) (i : Int) (acc : List α) :
    forUp (fun j acc => acc ++ [F j]) n i acc
      = acc ++ (List.range n).map (fun (k : ℕ) => F (i + (k : Int))) := by
  induction n generalizing i acc with
  | zero => simp [forUp]
  | succ n ih =>
    rw [forUp_succ, ih, List.range_succ_eq_map, List.map_cons, List.map_map,
      List.append_assoc]
    simp only [Nat.cast_zero, add_zero, List.singleton_append, Function.comp_def]
    congr 2
    apply List.map_congr_left
    intro k _
    congr 1
    push_cast; ring

/-- Closed form of `print_square_with` when the loop bounds do not overflow. -/
theorem print_square_with_eq {α : Type} (emit : Int → Int → α) (x y size : Int)
    (hs : 0 ≤ size) (hx1 : -2147483648 ≤ x - 1) (hx2 : x + size + 1 ≤ 2147483647)
    (hy1 : -2147483648 ≤ y - 1) (hy2 : y + size + 1 ≤ 2147483647) :
    print_square_with emit x y size =
      (List.range (size + 2).toNat).map (fun (i : ℕ) =>
        (List.range (size + 2).toNat).map (fun (j : ℕ) =>
          emit (y - 1 + (i : Int)) (x - 1 + (j : Int)))) := by
  have e1 : wrap32 (x - 1) = x - 1 := wrap32_of_range (by omega) (by omega)
  have e2 : wrap32 (x + size) = x + size := wrap32_of_range (by omega) (by omega)
  have e3 : wrap32 (x + size + 1) = x + size + 1 := wrap32_of_range (by omega) (by omega)
  have e4 : wrap32 (y - 1) = y - 1 := wrap32_of_range (by omega) (by omega)
  have e5 : wrap32 (y + size) = y + size := wrap32_of_range (by omega) (by omega)
  have e6 : wrap32 (y + size + 1) = y + size + 1 := wrap32_of_range (by omega) (by omega)
  have cx : (x + size + 1 - (x - 1)).toNat = (size + 2).toNat := by congr 1; ring
  have cy : (y + size + 1 - (y - 1)).toNat = (size + 2).toNat := by congr 1; ring
  unfold print_square_with forLt
  rw [e1, e2, e3, e4, e5, e6, cx, cy]
  have h : (fun (y1 : Int) (out : List (List α)) =>
      out ++ [forUp (fun x1 row => row ++ [emit y1 x1]) (size + 2).toNat (x - 1) []])
      = fun y1 out => out ++ [(List.range (size + 2).toNat).map (fun (j : ℕ) =>
          emit y1 (x - 1 + (j : Int)))] := by
    funext y1 out
    rw [forUp_append_map (fun x1 => emit y1 x1), List.nil_append]
  rw [h, forUp_append_map (fun y1 => (List.range (size + 2).toNat).map (fun (j : ℕ) =>
    emit y1 (x - 1 + (j : Int)))), List.nil_append]

theorem mem_print_square_with {α : Type} (emit : Int → Int → α) (x y size : Int)
    (hs : 0 ≤ size) (hx1 : -2147483648 ≤ x - 1) (hx2 : x + size + 1 ≤ 2147483647)
    (hy1 : -2147483648 ≤ y - 1) (hy2 : y + size + 1 ≤ 2147483647) (v : α) :
    v ∈ (print_square_with emit x y size).flatten ↔
      ∃ i j : Int, 0 ≤ i ∧ i < size + 2 ∧ 0 ≤ j ∧ j < size + 2 ∧
        v = emit (y - 1 + i) (x - 1 + j) := by
  rw [print_square_with_eq emit x y size hs hx1 hx2 hy1 hy2]
  have en : (((size + 2).toNat : ℕ) : Int) = size + 2 := Int.toNat_of_nonneg (by omega)
  simp only [List.mem_flatten, List.mem_map, List.mem_range]
  constructor
  · rintro ⟨row, ⟨i, hi, rfl⟩, hv⟩
    rw [List.mem_map] at hv
    obtain ⟨j, hj, rfl⟩ := hv
    rw [List.mem_range] at hj
    exact ⟨i, j, by omega, by omega, by omega, by omega, rfl⟩
  · rintro ⟨i, j, hi0, hi, hj0, hj, rfl⟩
    refine ⟨_, ⟨i.toNat, by omega, rfl⟩, ?_⟩
    rw [List.mem_map]
    refine ⟨j.toNat, List.mem_range.mpr (by omega), ?_⟩
    rw [Int.toNat_of_nonneg hi0, Int.toNat_of_nonneg hj0]

/-- C16: for every valid square (`x, y ≥ 1`, `s ≥ 1`, `x+s-1 ≤ 300`,
`y+s-1 ≤ 300`) every index read by `print_square(x, y, s)` lies in `[0, 301]`;
all of them lie in the populated range `[1,300]` if and only if `x ≥ 2`,
`y ≥ 2`, `x+s ≤ 300` and `y+s ≤ 300`; index 301 is read exactly when
`x+s = 301` or `y+s = 301`, and exactly then some printed value is a read
outside the storage. -/
theorem print_square_index_range (x y s : Int) (hx : 1 ≤ x) (hy : 1 ≤ y) (hs : 1 ≤ s)
    (hx2 : x + s - 1 ≤ 300) (hy2 : y + s - 1 ≤ 300) :
    (∀ p ∈ (print_square_reads x y s).flatten,
      (0 ≤ p.1 ∧ p.1 ≤ 301) ∧ (0 ≤ p.2 ∧ p.2 ≤ 301)) ∧
    ((∀ p ∈ (print_square_reads x y s).flatten,
        (1 ≤ p.1 ∧ p.1 ≤ 300) ∧ (1 ≤ p.2 ∧ p.2 ≤ 300)) ↔
      (2 ≤ x ∧ 2 ≤ y ∧ x + s ≤ 300 ∧ y + s ≤ 300)) ∧
    ((∃ p ∈ (print_square_reads x y s).flatten, p.1 = 301 ∨ p.2 = 301) ↔
      (x + s = 301 ∨ y + s = 301)) ∧
    (∀ g : Grid, none ∈ (print_square g x y s).flatten ↔ (x + s = 301 ∨ y + s = 301)) := by
  have hm := fun p => mem_print_square_with (fun y1 x1 => (y1, x1)) x y s (by omega)
    (by omega) (by omega) (by omega) (by omega) p
  refine ⟨?_, ?_, ?_, ?_⟩
  · intro p hp
    obtain ⟨i, j, h1, h2, h3, h4, rfl⟩ := (hm p).mp hp
    simp only
    omega
  · constructor
    · intro h
      have h00 := h (y - 1 + 0, x - 1 + 0)
        ((hm _).mpr ⟨0, 0, by omega, by omega, by omega, by omega, rfl⟩)
      have h11 := h (y - 1 + (s + 1), x - 1 + (s + 1))
        ((hm _).mpr ⟨s + 1, s + 1, by omega, by omega, by omega, by omega, rfl⟩)
      simp only at h00 h11
      omega
    · intro h p hp
      obtain ⟨i, j, h1, h2, h3, h4, rfl⟩ := (hm p).mp hp
      simp only
      omega
  · constructor
    · rintro ⟨p, hp, h⟩
      obtain ⟨i, j, h1, h2, h3, h4, rfl⟩ := (hm p).mp hp
      simp only at h
      omega
    · rintro (h | h)
      · exact ⟨(y - 1 + 0, x - 1 + (s + 1)),
          (hm _).mpr ⟨0, s + 1, by omega, by omega, by omega, by omega, rfl⟩,
          Or.inr (by simp only; omega)⟩
      · exact ⟨(y - 1 + (s + 1), x - 1 + 0),
          (hm _).mpr ⟨s + 1, 0, by omega, by omega, by omega, by omega, rfl⟩,
          Or.inl (by simp only; omega)⟩
  · intro g
    have hg := mem_print_square_with (fun y1 x1 => g.read y1 x1) x y s (by omega)
      (by omega) (by omega) (by omega) (by omega) none
    unfold print_square
    rw [hg]
    constructor
    · rintro ⟨i, j, h1, h2, h3, h4, h⟩
      by_contra hc
      rw [read_eq_some g (by omega) (by omega) (by omega) (by omega)] at h
      exact Option.noConfusion h
    · rintro (h | h)
      · refine ⟨0, s + 1, by omega, by omega, by omega, by omega, ?_⟩
        unfold Grid.read
        rw [if_neg (by omega)]
      · refine ⟨s + 1, 0, by omega, by omega, by omega, by omega, ?_⟩
        unfold Grid.read
        rw [if_neg (by omega)]

/-- Witness for C16: the 3-by-3 square at `(298, 45)`, which touches the right
border. -/
theorem print_square_index_range_witness :
    (∃ p ∈ (print_square_reads 298 45 3).flatten, p.1 = 301 ∨ p.2 = 301) ↔
      ((298 : Int) + 3 = 301 ∨ (45 : Int) + 3 = 301) :=
  (print_square_index_range 298 45 3 (by decide) (by decide) (by decide) (by decide)
    (by decide)).2.2.1

/-! ## The initial record of `part1` -/

/-- C17: for every grid, part 1 completes; its record is `(0, 0, 0)` if and only
if no anchor in `[1,298] x [1,298]` has a strictly positive 3-by-3 sum;
otherwise the recorded anchor lies in `[1,298] x [1,298]` and its sum is the
recorded value, which is positive.  In the first case the block printed is
`print_square(0, 0, 3)`, whose reads start at row and column `-1`, outside the
storage. -/
theorem part1_initial_record (g : Grid) :
    ∃ m out, part1 g = some (m, out) ∧ part1_scan g = some m ∧
      out = print_square g m.x m.y 3 ∧
      (m = { value := 0, x := 0, y := 0 } ↔
        ¬ ∃ x y v : Int, 1 ≤ x ∧ x ≤ 298 ∧ 1 ≤ y ∧ y ≤ 298 ∧
          square g x y 3 = some v ∧ 0 < v) ∧
      (m ≠ { value := 0, x := 0, y := 0 } →
        1 ≤ m.x ∧ m.x ≤ 298 ∧ 1 ≤ m.y ∧ m.y ≤ 298 ∧
          square g m.x m.y 3 = some m.value ∧ 0 < m.value) ∧
      (m = { value := 0, x := 0, y := 0 } →
        (print_square_reads m.x m.y 3).head? = some [(-1, -1), (-1, 0), (-1, 1), (-1, 2), (-1, 3)] ∧
        out.head? = some [none, none, none, none, none]) := by
  obtain ⟨m, hm, hA, hB⟩ := part1_scan_inv g
  refine ⟨m, print_square g m.x m.y 3, by rw [part1, hm]; rfl, hm, rfl, ?_, ?_, ?_⟩
  · constructor
    · rintro h0 ⟨x, y, v, h1, h2, h3, h4, h5, h6⟩
      have ha : Anchor1 x y := ⟨h1, h2, h3, h4⟩
      have hle := hA x y ha (by unfold Before1; omega)
      rw [square_anchor1 g ha] at h5
      have hv : squareVal g x y 3 = v := Option.some.inj h5
      rw [h0] at hle
      have : (({ value := 0, x := 0, y := 0 } : Max1).value) = 0 := rfl
      omega
    · intro hno
      rcases hB with h0 | ⟨b1, _, b3, b4, _⟩
      · exact h0
      · exact absurd ⟨m.x, m.y, m.value, b1.1, b1.2.1, b1.2.2.1, b1.2.2.2,
          by rw [square_anchor1 g b1, b4], b3⟩ hno
  · intro hne
    rcases hB with h0 | ⟨b1, _, b3, b4, _⟩
    · exact absurd h0 hne
    · exact ⟨b1.1, b1.2.1, b1.2.2.1, b1.2.2.2, by rw [square_anchor1 g b1, b4], b3⟩
  · intro h0
    rw [h0]
    refine ⟨by decide, ?_⟩
    show (print_square g 0 0 3).head? = some [none, none, none, none, none]
    unfold print_square
    rw [print_square_with_eq (fun y1 x1 => g.read y1 x1) 0 0 3 (by decide) (by decide)
      (by decide) (by decide) (by decide)]
    rfl

/-! ## The history of the `part2` scan -/

theorem forUpM_proj {σ τ : Type} (π : τ → σ) (body1 : Int → σ → Option σ)
    (body2 : Int → τ → Option τ) (h : ∀ i t, (body2 i t).map π = body1 i (π t)) (n : ℕ)
    (i : Int) (t : τ) : (forUpM body2 n i t).map π = forUpM body1 n i (π t) := by
  induction n generalizing i t with
  | zero => rfl
  | succ n ih =>
    have hb := h i t
    rw [forUpM, forUpM]
    cases h2 : body2 i t with
    | none =>
      rw [h2] at hb
      rw [← hb]
      rfl
    | some t1 =>
      rw [h2] at hb
      rw [← hb]
      exact ih (i + 1) t1

theorem forDownM_proj {σ τ : Type} (π : τ → σ) (body1 : Int → σ → Option σ)
    (body2 : Int → τ → Option τ) (h : ∀ i t, (body2 i t).map π = body1 i (π t)) (n : ℕ)
    (i : Int) (t : τ) : (forDownM body2 n i t).map π = forDownM body1 n i (π t) := by
  induction n generalizing i t with
  | zero => rfl
  | succ n ih =>
    have hb := h i t
    rw [forDownM, forDownM]
    cases h2 : body2 i t with
    | none =>
      rw [h2] at hb
      rw [← hb]
      rfl
    | some t1 =>
      rw [h2] at hb
      rw [← hb]
      exact ih (i - 1) t1

/-- Forgetting the history of `part2_trace` gives `part2_scan`. -/
theorem part2_trace_fst (g : Grid) : (part2_trace g).map Prod.fst = part2_scan g := by
  unfold part2_trace part2_scan forGtM
  apply forDownM_proj
  intro size st
  unfold forToM
  apply forUpM_proj
  intro y st
  apply forUpM_proj
  intro x st
  cases square g x y size <;> rfl

theorem recordOK_value_nonneg {g : Grid} {r : Max2} (h : RecordOK g r) : 0 ≤ r.value := by
  rcases h with h0 | h1
  · rw [h0]
  · omega

theorem traceInv_start (g : Grid) :
    TraceInv g ({ value := 0, x := 0, y := 0, size := 0 },
      [{ value := 0, x := 0, y := 0, size := 0 }]) := by
  refine ⟨Or.inl rfl, ?_, List.pairwise_singleton _ _, rfl, rfl⟩
  intro r hr
  rw [List.mem_singleton] at hr
  subst hr
  exact ⟨Or.inl rfl, le_refl _⟩

theorem traceInv_step {g : Grid} {st : Max2 × List Max2} (h : TraceInv g st) {x y s : Int}
    (ha : Anchor2 x y s) (m1 : Max2)
    (hm1 : m1 = if squareVal g x y s > st.1.value then
      { value := squareVal g x y s, x := x, y := y, size := s } else st.1) :
    TraceInv g (m1, st.2 ++ [m1]) := by
  obtain ⟨h1, h2, h3, h4, h5⟩ := h
  have h0 := recordOK_value_nonneg h1
  have hok : RecordOK g m1 := by
    by_cases hc : squareVal g x y s > st.1.value
    · rw [if_pos hc] at hm1
      rw [hm1]
      exact Or.inr ⟨ha, by show 0 < squareVal g x y s; omega, square_anchor2 g ha⟩
    · rw [if_neg hc] at hm1
      rw [hm1]; exact h1
  have hle : st.1.value ≤ m1.value := by
    by_cases hc : squareVal g x y s > st.1.value
    · rw [if_pos hc] at hm1
      rw [hm1]; show st.1.value ≤ squareVal g x y s; omega
    · rw [if_neg hc] at hm1
      rw [hm1]
  have hne : st.2 ≠ [] := by
    intro he
    rw [he] at h4
    exact Option.noConfusion h4
  refine ⟨hok, ?_, ?_, ?_, ?_⟩
  · intro r hr
    rw [List.mem_append, List.mem_singleton] at hr
    rcases hr with hr | hr
    · exact ⟨(h2 r hr).1, le_trans (h2 r hr).2 hle⟩
    · rw [hr]; exact ⟨hok, le_refl _⟩
  · show List.Pairwise _ (st.2 ++ [m1])
    rw [List.pairwise_append]
    refine ⟨h3, List.pairwise_singleton _ _, ?_⟩
    intro a ha1 b hb
    rw [List.mem_singleton] at hb
    rw [hb]
    exact le_trans (h2 a ha1).2 hle
  · show (st.2 ++ [m1]).head? = _
    rw [List.head?_append_of_ne_nil _ hne]
    exact h4
  · show (st.2 ++ [m1]).getLast? = some m1
    simp

/-- The scan with history always completes and its state satisfies `TraceInv`. -/
theorem part2_trace_inv (g : Grid) : ∃ st, part2_trace g = some st ∧ TraceInv g st := by
  unfold part2_trace forGtM
  have e : (300 - 0 : Int).toNat = 300 := by decide
  rw [e]
  apply forDownM_inv _ (fun _ st => TraceInv g st) 300 300 _ (traceInv_start g)
  intro k st hk hst
  have hw : wrap32 (301 - (300 - (k : Int))) = 301 - (300 - (k : Int)) :=
    wrap32_of_range (by omega) (by omega)
  simp only [hw]
  unfold forToM
  have hL : (((301 - (300 - (k : Int)) + 1 - 1 : Int).toNat : ℕ) : Int)
      = 301 - (300 - (k : Int)) := by omega
  generalize (301 - (300 - (k : Int)) + 1 - 1 : Int).toNat = n at hL
  apply forUpM_inv _ (fun _ st => TraceInv g st) n 1 st hst
  intro ky st hky hst
  apply forUpM_inv _ (fun _ st => TraceInv g st) n 1 st hst
  intro kx st hkx hst
  have ha : Anchor2 (1 + (kx : Int)) (1 + (ky : Int)) (300 - (k : Int)) := by
    unfold Anchor2; omega
  rw [square_anchor2 g ha]
  exact ⟨_, rfl, traceInv_step hst ha _ rfl⟩

/-- C18: the part-2 scan with history completes; every value the best-result
record holds during the scan (the initial one and the one after each scan
step) is either the initial `(0, 0, 0, 0)` or satisfies `1 ≤ size ≤ 300`,
`1 ≤ x, y ≤ 301 - size`, `value > 0` and `square(x, y, size) = value`; and the
recorded value never decreases from one scan step to the next.  The last
value of the history is the record of `part2_scan`. -/
theorem part2_record_invariant (g : Grid) :
    ∃ m log, part2_trace g = some (m, log) ∧ part2_scan g = some m ∧
      log.head? = some { value := 0, x := 0, y := 0, size := 0 } ∧
      log.getLast? = some m ∧
      (∀ r ∈ log, r = { value := 0, x := 0, y := 0, size := 0 } ∨
        (1 ≤ r.size ∧ r.size ≤ 300 ∧ 1 ≤ r.x ∧ r.x ≤ 301 - r.size ∧
          1 ≤ r.y ∧ r.y ≤ 301 - r.size ∧ 0 < r.value ∧
          square g r.x r.y r.size = some r.value)) ∧
      List.Chain' (fun a b => a.value ≤ b.value) log := by
  obtain ⟨st, hst, h1, h2, h3, h4, h5⟩ := part2_trace_inv g
  have hp := part2_trace_fst g
  rw [hst] at hp
  refine ⟨st.1, st.2, hst, hp.symm, h4, h5, ?_, h3.chain'⟩
  intro r hr
  rcases (h2 r hr).1 with h0 | ⟨ha, hv, hsq⟩
  · exact Or.inl h0
  · exact Or.inr ⟨ha.1, ha.2.1, ha.2.2.1, ha.2.2.2.1, ha.2.2.2.2.1, ha.2.2.2.2.2, hv, hsq⟩

/-! ## Part 2 against part 1 -/

/-- C19: for every grid, both scans complete and the best value of part 2 is
at least the best value of part 1. -/
theorem part2_value_ge_part1 (g : Grid) :
    ∃ m1 m2, part1_scan g = some m1 ∧ part2_scan g = some m2 ∧ m1.value ≤ m2.value := by
  obtain ⟨m1, hm1, _, hB1⟩ := part1_scan_inv g
  obtain ⟨m2, hm2, hinv2⟩ := part2_scan_inv g
  have h0 := inv2_value_nonneg hinv2
  refine ⟨m1, m2, hm1, hm2, ?_⟩
  rcases hB1 with h | ⟨b1, _, _, b4, _⟩
  · rw [h]; exact h0
  · have ha : Anchor2 m1.x m1.y 3 := by
      unfold Anchor1 at b1
      unfold Anchor2
      omega
    have := hinv2.1 m1.x m1.y 3 ha (by unfold Before2; omega)
    omega

/-! ## Packed lanes -/

theorem horner_eq_sum (β : ℕ) (f : ℕ → ℕ) (i k : ℕ) :
    horner β f i k = ∑ j ∈ Finset.range k, f (i + j) * β ^ j := by
  induction k generalizing i with
  | zero => rfl
  | succ k ih =>
    rw [horner, ih, Finset.sum_range_succ']
    show f i + β * ∑ j ∈ Finset.range k, f (i + 1 + j) * β ^ j = _
    rw [Finset.mul_sum, add_comm]
    congr 1
    · apply Finset.sum_congr rfl
      intro j _
      rw [pow_succ]
      have e : i + 1 + j = i + (j + 1) := by omega
      rw [e]; ring
    · simp

theorem sum_digit (β : ℕ) (hβ : 0 < β) (q : ℕ) :
    ∀ (a : ℕ → ℕ) (n : ℕ), (∀ p, p < n → a p < β) → q < n →
      (∑ p ∈ Finset.range n, a p * β ^ p) / β ^ q % β = a q := by
  induction q with
  | zero =>
    intro a n ha hq
    obtain ⟨m, rfl⟩ : ∃ m, n = m + 1 := ⟨n - 1, by omega⟩
    rw [Finset.sum_range_succ', pow_zero, Nat.div_one, mul_one]
    have e : ∑ k ∈ Finset.range m, a (k + 1) * β ^ (k + 1)
        = β * ∑ k ∈ Finset.range m, a (k + 1) * β ^ k := by
      rw [Finset.mul_sum]
      apply Finset.sum_congr rfl
      intro k _
      rw [pow_succ]; ring
    rw [e, add_comm, Nat.add_mul_mod_self_left]
    exact Nat.mod_eq_of_lt (ha 0 hq)
  | succ q ih =>
    intro a n ha hq
    obtain ⟨m, rfl⟩ : ∃ m, n = m + 1 := ⟨n - 1, by omega⟩
    rw [Finset.sum_range_succ', pow_zero, mul_one]
    have e : ∑ k ∈ Finset.range m, a (k + 1) * β ^ (k + 1)
        = β * ∑ k ∈ Finset.range m, a (k + 1) * β ^ k := by
      rw [Finset.mul_sum]
      apply Finset.sum_congr rfl
      intro k _
      rw [pow_succ]; ring
    have e2 : β ^ (q + 1) = β * β ^ q := by rw [pow_succ]; ring
    rw [e, e2, ← Nat.div_div_eq_div_mul, add_comm, Nat.add_mul_div_left _ _ hβ,
      Nat.div_eq_of_lt (ha 0 (Nat.succ_pos m)), zero_add]
    exact ih (fun k => a (k + 1)) m (fun p hp => ha (p + 1) (by omega)) (by omega)

theorem pack_digit (a : ℕ → ℕ) (n q : ℕ) (ha : ∀ p, p < n → a p < laneBase) (hq : q < n) :
    pack a n / laneBase ^ q % laneBase = a q :=
  sum_digit laneBase (by decide) q a n ha hq

/-- Bit `21 q + 20` of a packed number is the guard bit of lane `q`. -/
theorem pack_testBit (a : ℕ → ℕ) (n q : ℕ) (ha : ∀ p, p < n → a p < laneBase) (hq : q < n) :
    (pack a n).testBit (21 * q + 20) = decide (laneHalf ≤ a q) := by
  have hbq : laneBase ^ q = 2 ^ (21 * q) := by
    have : laneBase = 2 ^ 21 := by decide
    rw [this, ← pow_mul]
  have hh : (2 : ℕ) ^ 20 = laneHalf := by decide
  have hd := pack_digit a n q ha hq
  have haq := ha q hq
  have hm := Nat.mod_mul_right_div_self (pack a n / laneBase ^ q) laneHalf 2
  have h2 : laneHalf * 2 = laneBase := by decide
  rw [h2, hd] at hm
  rw [Nat.testBit_to_div_mod, pow_add, ← Nat.div_div_eq_div_mul, ← hbq, hh, ← hm]
  unfold laneHalf laneBase at *
  by_cases h : 1048576 ≤ a q
  · have : a q / 1048576 = 1 := by omega
    simp [this, h]
  · have : a q / 1048576 = 0 := by omega
    simp [this, h]

/-- Guard check: if no guard bit of the packed number is set, every lane is
below `laneHalf`. -/
theorem pack_guard (u : ℕ → ℕ) (n : ℕ) (hu : ∀ p, p < n → u p < laneBase)
    (h : Nat.land (pack u n) (pack (fun _ => laneHalf) n) = 0) :
    ∀ q, q < n → u q < laneHalf := by
  intro q hq
  have h1 := pack_testBit u n q hu hq
  have h2 := pack_testBit (fun _ => laneHalf) n q (fun _ _ => (by decide : laneHalf < laneBase)) hq
  have h3 : (pack u n &&& pack (fun _ => laneHalf) n).testBit (21 * q + 20) = false := by
    show (Nat.land (pack u n) (pack (fun _ => laneHalf) n)).testBit (21 * q + 20) = false
    rw [h]; exact Nat.zero_testBit _
  rw [Nat.testBit_and, h1, h2] at h3
  simpa using h3

theorem sum_range_mul_add (f : ℕ → ℕ) (n m : ℕ) :
    ∑ p ∈ Finset.range (n * m), f p
      = ∑ Y ∈ Finset.range m, ∑ X ∈ Finset.range n, f (n * Y + X) := by
  induction m with
  | zero => simp
  | succ m ih =>
    rw [Nat.mul_succ, Finset.sum_range_add, ih, Finset.sum_range_succ]

theorem gridLane_mul_add (seed X Y : ℕ) (hX : X < 301) :
    gridLane seed (301 * Y + X)
      = if 1 ≤ X ∧ 1 ≤ Y ∧ Y ≤ 300 then digitN seed X Y else 0 := by
  have h1 : (301 * Y + X) % 301 = X := by omega
  have h2 : (301 * Y + X) / 301 = Y := by omega
  unfold gridLane
  rw [h1, h2]

theorem gridLane_le (seed p : ℕ) : gridLane seed p ≤ 9 := by
  unfold gridLane
  split
  · show ((p % 301 + 10) * (p / 301) + seed) * (p % 301 + 10) / 100 % 10 ≤ 9
    omega
  · omega

theorem gridLane_zero_of_ge (seed p : ℕ) (h : 301 * 301 ≤ p) : gridLane seed p = 0 := by
  unfold gridLane
  rw [if_neg]
  omega

theorem packedGrid_eq (seed : ℕ) : packedGrid seed = pack (gridLane seed) (301 * 301) := by
  have hL : packedGrid seed = ∑ j ∈ Finset.range 300, ∑ i ∈ Finset.range 300,
      digitN seed (1 + i) (1 + j) * laneBase ^ (301 * (j + 1) + (i + 1)) := by
    show rowBase * horner rowBase
      (fun Y => laneBase * horner laneBase (fun X => digitN seed X Y) 1 300) 1 300 = _
    rw [horner_eq_sum, Finset.mul_sum]
    apply Finset.sum_congr rfl
    intro j _
    beta_reduce
    rw [horner_eq_sum, Finset.mul_sum, Finset.sum_mul, Finset.mul_sum]
    apply Finset.sum_congr rfl
    intro i _
    have hr : rowBase = laneBase ^ 301 := rfl
    rw [hr, ← pow_mul]
    ring
  have hR : pack (gridLane seed) (301 * 301) = ∑ j ∈ Finset.range 300, ∑ i ∈ Finset.range 300,
      digitN seed (1 + i) (1 + j) * laneBase ^ (301 * (j + 1) + (i + 1)) := by
    unfold pack
    rw [sum_range_mul_add, Finset.sum_range_succ']
    have h0 : ∑ X ∈ Finset.range 301,
        gridLane seed (301 * 0 + X) * laneBase ^ (301 * 0 + X) = 0 := by
      apply Finset.sum_eq_zero
      intro X hX
      rw [gridLane_mul_add seed X 0 (Finset.mem_range.mp hX), if_neg (by omega), zero_mul]
    rw [h0, add_zero]
    apply Finset.sum_congr rfl
    intro j hj
    have hj1 := Finset.mem_range.mp hj
    rw [Finset.sum_range_succ']
    rw [gridLane_mul_add seed 0 (j + 1) (by omega), if_neg (by omega), zero_mul, add_zero]
    apply Finset.sum_congr rfl
    intro i hi
    have hi1 := Finset.mem_range.mp hi
    rw [gridLane_mul_add seed (i + 1) (j + 1) (by omega), if_pos (by omega)]
    rw [Nat.add_comm 1 i, Nat.add_comm 1 j]
  rw [hL, hR]

/-! ### Algebra of packed numbers -/

theorem pack_add (a c : ℕ → ℕ) (n : ℕ) :
    pack a n + pack c n = pack (fun p => a p + c p) n := by
  unfold pack
  rw [← Finset.sum_add_distrib]
  apply Finset.sum_congr rfl
  intro p _
  ring

theorem pack_sum {ι : Type} (I : Finset ι) (a : ι → ℕ → ℕ) (n : ℕ) :
    ∑ i ∈ I, pack (a i) n = pack (fun p => ∑ i ∈ I, a i p) n := by
  unfold pack
  rw [Finset.sum_comm]
  apply Finset.sum_congr rfl
  intro p _
  rw [Finset.sum_mul]

theorem pack_const (c n : ℕ) : c * pack (fun _ => 1) n = pack (fun _ => c) n := by
  unfold pack
  rw [Finset.mul_sum]
  apply Finset.sum_congr rfl
  intro p _
  ring

theorem pack_ones (n : ℕ) : pack (fun _ => 1) n = geom laneBase n := by
  unfold pack
  simp only [one_mul]
  exact Nat.geomSum_eq (by decide) n

theorem geom_eq_sum (β : ℕ) (hβ : 2 ≤ β) (k : ℕ) :
    geom β k = ∑ j ∈ Finset.range k, β ^ j :=
  (Nat.geomSum_eq hβ k).symm

theorem pack_extend (a : ℕ → ℕ) (n N : ℕ) (ha : ∀ p, n ≤ p → a p = 0) (hn : n ≤ N) :
    pack a N = pack a n := by
  obtain ⟨m, rfl⟩ : ∃ m, N = n + m := ⟨N - n, by omega⟩
  unfold pack
  rw [Finset.sum_range_add]
  have : ∑ x ∈ Finset.range m, a (n + x) * laneBase ^ (n + x) = 0 := by
    apply Finset.sum_eq_zero
    intro x _
    rw [ha (n + x) (by omega), zero_mul]
  rw [this, add_zero]

theorem pack_shift (a : ℕ → ℕ) (n d : ℕ) :
    pack a n * laneBase ^ d = pack (shiftLane d a) (d + n) := by
  unfold pack
  rw [Finset.sum_range_add]
  have h0 : ∑ x ∈ Finset.range d, shiftLane d a x * laneBase ^ x = 0 := by
    apply Finset.sum_eq_zero
    intro x hx
    have := Finset.mem_range.mp hx
    unfold shiftLane
    rw [if_neg (by omega), zero_mul]
  rw [h0, zero_add, Finset.sum_mul]
  apply Finset.sum_congr rfl
  intro p _
  unfold shiftLane
  rw [if_pos (by omega), Nat.add_sub_cancel_left, pow_add]
  ring

theorem shiftLane_zero_of_ge (a : ℕ → ℕ) (n d : ℕ) (ha : ∀ p, n ≤ p → a p = 0) (q : ℕ)
    (hq : d + n ≤ q) : shiftLane d a q = 0 := by
  unfold shiftLane
  rw [if_pos (by omega)]
  exact ha _ (by omega)

theorem two_le_laneBase_pow (k : ℕ) (hk : k ≠ 0) : 2 ≤ laneBase ^ k :=
  Nat.succ_le_of_lt (Nat.one_lt_pow hk (by decide))

theorem two_le_rowBase : 2 ≤ rowBase :=
  two_le_laneBase_pow 301 (by decide)

/-- The product of the packed grid with the `s`-by-`s` kernel, lane by lane. -/
theorem conv_eq (seed s N : ℕ) (hs : s ≤ 300) (hN : 181202 ≤ N) :
    packedGrid seed * geom laneBase s * geom rowBase s = pack (convLane seed s) N := by
  rw [packedGrid_eq, geom_eq_sum laneBase (by decide), geom_eq_sum rowBase two_le_rowBase,
    mul_assoc, Finset.sum_mul_sum, Finset.mul_sum]
  unfold convLane
  rw [← pack_sum]
  apply Finset.sum_congr rfl
  intro dx hdx
  rw [Finset.mul_sum, ← pack_sum]
  apply Finset.sum_congr rfl
  intro dy hdy
  have h1 := Finset.mem_range.mp hdx
  have h2 := Finset.mem_range.mp hdy
  have hr : rowBase = laneBase ^ 301 := rfl
  rw [hr, ← pow_mul, ← pow_add, pack_shift]
  exact (pack_extend _ _ _
    (shiftLane_zero_of_ge _ _ _ (fun p hp => gridLane_zero_of_ge seed p hp)) (by omega)).symm

theorem pack_single (p0 N : ℕ) (hp0 : p0 < N) :
    pack (fun q => if q = p0 then 1 else 0) N = laneBase ^ p0 := by
  unfold pack
  rw [Finset.sum_eq_single p0]
  · beta_reduce
    rw [if_pos rfl, one_mul]
  · intro q _ hq
    beta_reduce
    rw [if_neg hq, zero_mul]
  · intro h
    exact absurd (Finset.mem_range.mpr hp0) h

/-- The threshold number, lane by lane. -/
theorem threshold_eq (c s s0 p0 N : ℕ) (hc : 1 ≤ c) (hp0 : p0 < N) :
    Nat.sub (Nat.mul c (geom laneBase N)) (cond (Nat.beq s s0) (Nat.pow laneBase p0) 0)
      = pack (fun q => c - (if s = s0 ∧ q = p0 then 1 else 0)) N := by
  show c * geom laneBase N - cond (Nat.beq s s0) (laneBase ^ p0) 0 = _
  rw [← pack_ones, pack_const]
  by_cases h : s = s0
  · subst h
    rw [Nat.beq_refl, cond_true]
    apply Nat.sub_eq_of_eq_add
    rw [← pack_single p0 N hp0, pack_add]
    unfold pack
    apply Finset.sum_congr rfl
    intro q _
    congr 1
    beta_reduce
    by_cases hq : q = p0
    · rw [if_pos ⟨rfl, hq⟩, if_pos hq]; omega
    · rw [if_neg (fun h => hq h.2), if_neg hq]; omega
  · have hb : Nat.beq s s0 = false := by
      cases hb : Nat.beq s s0
      · rfl
      · exact absurd (Nat.eq_of_beq_eq_true hb) h
    rw [hb, cond_false, Nat.sub_zero]
    unfold pack
    apply Finset.sum_congr rfl
    intro q _
    beta_reduce
    rw [if_neg (fun h1 => h h1.1), Nat.sub_zero]

theorem convLane_le (seed s q : ℕ) : convLane seed s q ≤ 9 * (s * s) := by
  unfold convLane
  have h : ∀ dx ∈ Finset.range s,
      ∑ dy ∈ Finset.range s, shiftLane (dx + 301 * dy) (gridLane seed) q ≤ 9 * s := by
    intro dx _
    have h2 : ∀ dy ∈ Finset.range s, shiftLane (dx + 301 * dy) (gridLane seed) q ≤ 9 := by
      intro dy _
      unfold shiftLane
      split
      · exact gridLane_le seed _
      · omega
    have := Finset.sum_le_card_nsmul (Finset.range s) _ 9 h2
    rw [Finset.card_range, smul_eq_mul] at this
    omega
  have := Finset.sum_le_card_nsmul (Finset.range s) _ (9 * s) h
  rw [Finset.card_range, smul_eq_mul] at this
  have e : s * (9 * s) = 9 * (s * s) := by ring
  omega

/-- Soundness of the check for one size: every lane of digit sums is below its
threshold. -/
theorem sizeCheck_sound (seed T s0 p0 s N ones : ℕ) (hs : s ≤ 300)
    (hT : T + 5 * (s * s) < laneHalf) (hN : 181202 ≤ N) (hp0 : p0 < N)
    (hones : ones = geom laneBase N)
    (h : sizeCheck (packedGrid seed) ones T s0 p0 s = true) :
    ∀ q, q < N →
      convLane seed s q + (laneHalf - T - 5 * (s * s) - (if s = s0 ∧ q = p0 then 1 else 0))
        < laneHalf := by
  have hc : 1 ≤ laneHalf - T - 5 * (s * s) := by omega
  have hzero := Nat.eq_of_beq_eq_true h
  have hthr := threshold_eq (laneHalf - T - 5 * (s * s)) s s0 p0 N hc hp0
  have hconv := conv_eq seed s N hs hN
  have hmask : laneHalf * ones = pack (fun _ => laneHalf) N := by
    rw [hones, ← pack_ones, pack_const]
  rw [← hones] at hthr
  change Nat.land (packedGrid seed * geom laneBase s * geom rowBase s
    + Nat.sub (Nat.mul (laneHalf - T - 5 * (s * s)) ones)
      (cond (Nat.beq s s0) (Nat.pow laneBase p0) 0))
    (laneHalf * ones) = 0 at hzero
  rw [hconv, hthr, hmask, pack_add] at hzero
  have hss : s * s ≤ 300 * 300 := Nat.mul_le_mul hs hs
  apply pack_guard _ _ _ hzero
  intro p _
  have := convLane_le seed s p
  have hb : laneBase = 2097152 := rfl
  have hh : laneHalf = 1048576 := rfl
  rw [hb]
  rw [hh] at hT ⊢
  omega

/-- The lane of a square inside the populated block holds its digit sum. -/
theorem convLane_anchor (seed s X Y : ℕ) (hs : 1 ≤ s) (hX : 1 ≤ X) (hX2 : X + s ≤ 301)
    (hY : 1 ≤ Y) (hY2 : Y + s ≤ 301) :
    convLane seed s (301 * (Y + s - 1) + (X + s - 1))
      = ∑ dx ∈ Finset.range s, ∑ dy ∈ Finset.range s, digitN seed (X + dx) (Y + dy) := by
  unfold convLane
  rw [← Finset.sum_range_reflect (fun dx => ∑ dy ∈ Finset.range s, digitN seed (X + dx) (Y + dy))]
  apply Finset.sum_congr rfl
  intro dx hdx
  have h1 := Finset.mem_range.mp hdx
  rw [← Finset.sum_range_reflect (fun dy => digitN seed (X + (s - 1 - dx)) (Y + dy))]
  apply Finset.sum_congr rfl
  intro dy hdy
  have h2 := Finset.mem_range.mp hdy
  unfold shiftLane
  rw [if_pos (by omega)]
  have e : 301 * (Y + s - 1) + (X + s - 1) - (dx + 301 * dy)
      = 301 * (Y + (s - 1 - dy)) + (X + (s - 1 - dx)) := by omega
  rw [e, gridLane_mul_add seed _ _ (by omega), if_pos (by omega)]

/-- What a successful check of size `s` says about a square inside the
populated block: its digit sum is at most `T + 5 s^2`, and strictly less unless
its lane is the excepted lane `p0` of size `s0`. -/
theorem sizeCheck_anchor (seed T s0 p0 s N ones : ℕ) (hs1 : 1 ≤ s) (hs : s ≤ 300)
    (hT : T + 5 * (s * s) < laneHalf) (hN : 181202 ≤ N) (hp0 : p0 < N)
    (hones : ones = geom laneBase N)
    (h : sizeCheck (packedGrid seed) ones T s0 p0 s = true)
    (X Y : ℕ) (hX : 1 ≤ X) (hX2 : X + s ≤ 301) (hY : 1 ≤ Y) (hY2 : Y + s ≤ 301) :
    (∑ dx ∈ Finset.range s, ∑ dy ∈ Finset.range s, digitN seed (X + dx) (Y + dy))
      + (if s = s0 ∧ 301 * (Y + s - 1) + (X + s - 1) = p0 then 0 else 1) ≤ T + 5 * (s * s) := by
  have h1 := sizeCheck_sound seed T s0 p0 s N ones hs hT hN hp0 hones h
    (301 * (Y + s - 1) + (X + s - 1)) (by omega)
  rw [convLane_anchor seed s X Y hs1 hX hX2 hY hY2] at h1
  by_cases hc : s = s0 ∧ 301 * (Y + s - 1) + (X + s - 1) = p0
  · rw [if_pos hc] at h1 ⊢
    omega
  · rw [if_neg hc] at h1 ⊢
    omega

theorem checkFrom_sound (G ones T s0 p0 : ℕ) (k : ℕ) :
    ∀ s, checkFrom G ones T s0 p0 s k = true →
      ∀ j, j < k → sizeCheck G ones T s0 p0 (s + j) = true := by
  induction k with
  | zero => intro s _ j hj; omega
  | succ k ih =>
    intro s h j hj
    rw [checkFrom, Bool.and_eq_true] at h
    cases j with
    | zero => exact h.1
    | succ j =>
      have := ih (Nat.add s 1) h.2 j (by omega)
      have e : s + (j + 1) = Nat.add s 1 + j := by show s + (j + 1) = s + 1 + j; omega
      rw [e]; exact this

/-! ## From the packed check to the scans -/

theorem cell_eq_digitN (seed X Y : ℕ) (hX : 1 ≤ X) (hX2 : X ≤ 300) (hY : 1 ≤ Y)
    (hY2 : Y ≤ 300) (hseed : seed ≤ 6834366) :
    cell (X : Int) (Y : Int) (seed : Int) = (digitN seed X Y : Int) - 5 := by
  rw [cell_exact_on_domain (by omega) (by omega) (by omega) (by omega) (by omega) (by omega)]
  unfold cellSpec
  show _ = (((((X + 10) * Y + seed) * (X + 10) / 100 % 10 : ℕ)) : Int) - 5
  push_cast
  rfl

/-- After `fill`, the value of `square` on a valid square is the block sum of
`cell`. -/
theorem squareVal_fill_eq (seed : Int) (g : Grid) {x y s : Int} (ha : Anchor2 x y s) :
    squareVal (fill seed g) x y s = blockSum (fun y1 x1 => cell x1 y1 seed) x y s.toNat := by
  have hv := square_anchor2 (fill seed g) ha
  unfold Anchor2 at ha
  have hs300 : s ≤ 300 := by omega
  have h14 : s * (s * 14) ≤ 300 * (300 * 14) :=
    mul_le_mul hs300 (by omega) (by omega) (by omega)
  have hcell : ∀ dy dx : Int, 0 ≤ dy → dy < s → 0 ≤ dx → dx < s →
      fill seed g (y + dy) (x + dx) = cell (x + dx) (y + dy) seed := by
    intro dy dx h1 h2 h3 h4
    rw [fill_apply, if_pos (by omega)]
  have h := (square_eq_blockSum (fill seed g) 14 x y s (by omega)
    (by omega) (by omega) (by omega) (by omega) (by omega) (by omega) (by
      intro dy dx h1 h2 h3 h4
      rw [hcell dy dx h1 h2 h3 h4]
      have := cell_bounds_any (x + dx) (y + dy) seed
      omega)).1
  rw [hv] at h
  rw [Option.some.inj h]
  unfold blockSum
  apply Finset.sum_congr rfl
  intro dy hdy
  apply Finset.sum_congr rfl
  intro dx hdx
  have e : ((s.toNat : ℕ) : Int) = s := Int.toNat_of_nonneg (by omega)
  have h1 := Finset.mem_range.mp hdy
  have h2 := Finset.mem_range.mp hdx
  exact hcell dy dx (by omega) (by omega) (by omega) (by omega)

/-- After `fill`, the value of `square` on a valid square is its digit sum
minus `5 s^2`. -/
theorem squareVal_fill_digits (seed : ℕ) (hseed : seed ≤ 6834366) (g : Grid) (X Y S : ℕ)
    (hS : 1 ≤ S) (hX : 1 ≤ X) (hX2 : X + S ≤ 301) (hY : 1 ≤ Y) (hY2 : Y + S ≤ 301) :
    squareVal (fill (seed : Int) g) (X : Int) (Y : Int) (S : Int)
      = ((∑ dx ∈ Finset.range S, ∑ dy ∈ Finset.range S, digitN seed (X + dx) (Y + dy) : ℕ)
          : Int) - 5 * ((S : Int) * (S : Int)) := by
  have ha : Anchor2 (X : Int) (Y : Int) (S : Int) := by unfold Anchor2; omega
  rw [squareVal_fill_eq (seed : Int) g ha, Int.toNat_ofNat]
  unfold blockSum
  rw [Finset.sum_comm]
  push_cast
  have hterm : ∀ dx ∈ Finset.range S, ∀ dy ∈ Finset.range S,
      cell (↑X + ↑dx) (↑Y + ↑dy) (seed : Int) = (digitN seed (X + dx) (Y + dy) : Int) - 5 := by
    intro dx hdx dy hdy
    have h1 := Finset.mem_range.mp hdx
    have h2 := Finset.mem_range.mp hdy
    have := cell_eq_digitN seed (X + dx) (Y + dy) (by omega) (by omega) (by omega) (by omega)
      hseed
    push_cast at this
    exact this
  rw [Finset.sum_congr rfl (fun dx hdx => Finset.sum_congr rfl (hterm dx hdx))]
  simp only [Finset.sum_sub_distrib, Finset.sum_const, Finset.card_range, smul_eq_mul,
    nsmul_eq_mul]
  ring

/-- What a successful check of size `S` says about `square` after `fill`. -/
theorem squareVal_le_of_check (seed T s0 p0 N ones : ℕ) (hseed : seed ≤ 6834366) (g : Grid)
    (S : ℕ) (hS1 : 1 ≤ S) (hS : S ≤ 300) (hT : T + 450000 < laneHalf) (hN : 181202 ≤ N)
    (hp0 : p0 < N) (hones : ones = geom laneBase N)
    (h : sizeCheck (packedGrid seed) ones T s0 p0 S = true)
    (X Y : ℕ) (hX : 1 ≤ X) (hX2 : X + S ≤ 301) (hY : 1 ≤ Y) (hY2 : Y + S ≤ 301) :
    squareVal (fill (seed : Int) g) (X : Int) (Y : Int) (S : Int)
      + (if S = s0 ∧ 301 * (Y + S - 1) + (X + S - 1) = p0 then 0 else 1) ≤ (T : Int) := by
  have hSS : S * S ≤ 300 * 300 := Nat.mul_le_mul hS hS
  have h1 := sizeCheck_anchor seed T s0 p0 S N ones hS1 hS (by omega) hN hp0 hones h X Y
    hX hX2 hY hY2
  rw [squareVal_fill_digits seed hseed g X Y S hS1 hX hX2 hY hY2]
  by_cases hc : S = s0 ∧ 301 * (Y + S - 1) + (X + S - 1) = p0
  · rw [if_pos hc] at h1 ⊢
    have h2 : (((∑ dx ∈ Finset.range S, ∑ dy ∈ Finset.range S,
        digitN seed (X + dx) (Y + dy) : ℕ)) : Int) + 0
        ≤ (T : Int) + 5 * ((S : Int) * (S : Int)) := by
      exact_mod_cast h1
    omega
  · rw [if_neg hc] at h1 ⊢
    have h2 : (((∑ dx ∈ Finset.range S, ∑ dy ∈ Finset.range S,
        digitN seed (X + dx) (Y + dy) : ℕ)) : Int) + 1
        ≤ (T : Int) + 5 * ((S : Int) * (S : Int)) := by
      exact_mod_cast h1
    omega

/-- If the check of size 3 succeeds with bound `T` and excepted anchor
`(x0, y0)`, whose sum is `T > 0`, the part-1 scan after `fill` records
`(T, x0, y0)`. -/
theorem part1_scan_of_check (seed T x0 y0 : ℕ) (hseed : seed ≤ 6834366) (g : Grid)
    (hx0 : 1 ≤ x0) (hx1 : x0 ≤ 298) (hy0 : 1 ≤ y0) (hy1 : y0 ≤ 298) (hT0 : 0 < T)
    (hT : T + 450000 < laneHalf)
    (hcheck : sizeCheck (packedGrid seed) (geom laneBase 181202) T 3
      (301 * (y0 + 3 - 1) + (x0 + 3 - 1)) 3 = true)
    (hval : squareVal (fill (seed : Int) g) (x0 : Int) (y0 : Int) 3 = (T : Int)) :
    part1_scan (fill (seed : Int) g)
      = some { value := (T : Int), x := (x0 : Int), y := (y0 : Int) } := by
  obtain ⟨m, hm, hA, hB⟩ := part1_scan_inv (fill (seed : Int) g)
  have ha0 : Anchor1 (x0 : Int) (y0 : Int) := by unfold Anchor1; omega
  have hle := hA x0 y0 ha0 (by unfold Before1; omega)
  rw [hval] at hle
  rcases hB with h0 | ⟨b1, _, _, b4, _⟩
  · rw [h0] at hle
    have : (({ value := 0, x := 0, y := 0 } : Max1).value) = 0 := rfl
    omega
  · obtain ⟨v, mx, my⟩ := m
    simp only at b1 b4 hle
    unfold Anchor1 at b1
    have hX : ((mx.toNat : ℕ) : Int) = mx := Int.toNat_of_nonneg (by omega)
    have hY : ((my.toNat : ℕ) : Int) = my := Int.toNat_of_nonneg (by omega)
    have hb := squareVal_le_of_check seed T 3 (301 * (y0 + 3 - 1) + (x0 + 3 - 1)) 181202
      (geom laneBase 181202) hseed g 3 (by omega) (by omega) hT (le_refl _) (by omega) rfl
      hcheck mx.toNat my.toNat (by omega) (by omega) (by omega) (by omega)
    rw [hX, hY] at hb
    have hb' : squareVal (fill (seed : Int) g) mx my 3
        + (if 3 = 3 ∧ 301 * (my.toNat + 3 - 1) + (mx.toNat + 3 - 1)
            = 301 * (y0 + 3 - 1) + (x0 + 3 - 1) then 0 else 1) ≤ (T : Int) := hb
    rw [b4] at hb'
    by_cases hc : 3 = 3 ∧ 301 * (my.toNat + 3 - 1) + (mx.toNat + 3 - 1)
        = 301 * (y0 + 3 - 1) + (x0 + 3 - 1)
    · rw [hm]
      have e1 : mx = (x0 : Int) := by omega
      have e2 : my = (y0 : Int) := by omega
      rw [if_pos hc] at hb'
      have e3 : v = (T : Int) := by omega
      rw [e1, e2, e3]
    · rw [if_neg hc] at hb'
      omega

/-- If the checks of all sizes succeed with bound `T` and excepted square
`(x0, y0, s0)`, whose sum is `T > 0`, the part-2 scan after `fill` records
`(T, x0, y0, s0)`. -/
theorem part2_scan_of_check (seed T x0 y0 s0 : ℕ) (hseed : seed ≤ 6834366) (g : Grid)
    (hs0 : 1 ≤ s0) (hx0 : 1 ≤ x0) (hx1 : x0 + s0 ≤ 301) (hy0 : 1 ≤ y0) (hy1 : y0 + s0 ≤ 301)
    (hT0 : 0 < T) (hT : T + 450000 < laneHalf)
    (hcheck : checkFrom (packedGrid seed) (geom laneBase 181202) T s0
      (301 * (y0 + s0 - 1) + (x0 + s0 - 1)) 1 300 = true)
    (hval : squareVal (fill (seed : Int) g) (x0 : Int) (y0 : Int) (s0 : Int) = (T : Int)) :
    part2_scan (fill (seed : Int) g)
      = some { value := (T : Int), x := (x0 : Int), y := (y0 : Int), size := (s0 : Int) } := by
  obtain ⟨m, hm, hA, hB⟩ := part2_scan_inv (fill (seed : Int) g)
  have ha0 : Anchor2 (x0 : Int) (y0 : Int) (s0 : Int) := by unfold Anchor2; omega
  have hle := hA x0 y0 s0 ha0 (by unfold Before2; omega)
  rw [hval] at hle
  rcases hB with h0 | ⟨b1, _, _, b4, _⟩
  · rw [h0] at hle
    have : (({ value := 0, x := 0, y := 0, size := 0 } : Max2).value) = 0 := rfl
    omega
  · obtain ⟨v, mx, my, ms⟩ := m
    simp only at b1 b4 hle
    unfold Anchor2 at b1
    have hX : ((mx.toNat : ℕ) : Int) = mx := Int.toNat_of_nonneg (by omega)
    have hY : ((my.toNat : ℕ) : Int) = my := Int.toNat_of_nonneg (by omega)
    have hS : ((ms.toNat : ℕ) : Int) = ms := Int.toNat_of_nonneg (by omega)
    have hsc := checkFrom_sound _ _ _ _ _ 300 1 hcheck (ms.toNat - 1) (by omega)
    have e1 : 1 + (ms.toNat - 1) = ms.toNat := by omega
    rw [e1] at hsc
    have hb := squareVal_le_of_check seed T s0 (301 * (y0 + s0 - 1) + (x0 + s0 - 1)) 181202
      (geom laneBase 181202) hseed g ms.toNat (by omega) (by omega) hT (le_refl _) (by omega)
      rfl hsc mx.toNat my.toNat (by omega) (by omega) (by omega) (by omega)
    rw [hX, hY, hS, b4] at hb
    by_cases hc : ms.toNat = s0 ∧ 301 * (my.toNat + ms.toNat - 1) + (mx.toNat + ms.toNat - 1)
        = 301 * (y0 + s0 - 1) + (x0 + s0 - 1)
    · rw [hm]
      have e2 : ms = (s0 : Int) := by omega
      have e3 : mx = (x0 : Int) := by omega
      have e4 : my = (y0 : Int) := by omega
      rw [if_pos hc] at hb
      have e5 : v = (T : Int) := by omega
      rw [e2, e3, e4, e5]
    · rw [if_neg hc] at hb
      omega

/-! ## The fixtures of both parts -/

set_option maxRecDepth 100000 in
/-- The packed checks for seed 18: size 3 with bound 29 at `(33, 45)`, and all
sizes with bound 113 at `(90, 269)`, size 16. -/
theorem packed_check_seed18 :
    (sizeCheck (packedGrid 18) (geom laneBase 181202) 29 3
        (301 * (45 + 3 - 1) + (33 + 3 - 1)) 3 &&
      checkFrom (packedGrid 18) (geom laneBase 181202) 113 16
        (301 * (269 + 16 - 1) + (90 + 16 - 1)) 1 300) = true := by
  decide!

set_option maxRecDepth 100000 in
/-- The packed checks for seed 42: size 3 with bound 30 at `(21, 61)`, and all
sizes with bound 119 at `(232, 251)`, size 12. -/
theorem packed_check_seed42 :
    (sizeCheck (packedGrid 42) (geom laneBase 181202) 30 3
        (301 * (61 + 3 - 1) + (21 + 3 - 1)) 3 &&
      checkFrom (packedGrid 42) (geom laneBase 181202) 119 12
        (301 * (251 + 12 - 1) + (232 + 12 - 1)) 1 300) = true := by
  decide!

set_option maxRecDepth 100000 in
/-- The sums of `cell` over the four squares of the fixtures. -/
theorem fixture_sums :
    blockSum (fun y1 x1 => cell x1 y1 18) 33 45 3 = 29 ∧
    blockSum (fun y1 x1 => cell x1 y1 42) 21 61 3 = 30 ∧
    blockSum (fun y1 x1 => cell x1 y1 18) 90 269 16 = 113 ∧
    blockSum (fun y1 x1 => cell x1 y1 42) 232 251 12 = 119 := by
  decide!

/-- C11: after `fill(18)` (on any prior grid state) the part-1 scan records the
anchor `(33, 45)` with value 29; after `fill(42)` it records `(21, 61)` with
value 30. -/
theorem part1_fixtures (g : Grid) :
    (part1_scan (fill 18 g) = some { value := 29, x := 33, y := 45 } ∧
      part1 (fill 18 g)
        = some ({ value := 29, x := 33, y := 45 }, print_square (fill 18 g) 33 45 3)) ∧
    (part1_scan (fill 42 g) = some { value := 30, x := 21, y := 61 } ∧
      part1 (fill 42 g)
        = some ({ value := 30, x := 21, y := 61 }, print_square (fill 42 g) 21 61 3)) := by
  have h18 := (Bool.and_eq_true _ _ ▸ packed_check_seed18).1
  have h42 := (Bool.and_eq_true _ _ ▸ packed_check_seed42).1
  have a18 : Anchor2 33 45 3 := by unfold Anchor2; omega
  have a42 : Anchor2 21 61 3 := by unfold Anchor2; omega
  have v18 : squareVal (fill 18 g) 33 45 3 = 29 := by
    rw [squareVal_fill_eq 18 g a18]; exact fixture_sums.1
  have v42 : squareVal (fill 42 g) 21 61 3 = 30 := by
    rw [squareVal_fill_eq 42 g a42]; exact fixture_sums.2.1
  have r18 := part1_scan_of_check 18 29 33 45 (by decide) g (by decide) (by decide)
    (by decide) (by decide) (by decide) (by decide) h18 (by exact_mod_cast v18)
  have r42 := part1_scan_of_check 42 30 21 61 (by decide) g (by decide) (by decide)
    (by decide) (by decide) (by decide) (by decide) h42 (by exact_mod_cast v42)
  have e18 : part1_scan (fill 18 g) = some { value := 29, x := 33, y := 45 } := by
    exact_mod_cast r18
  have e42 : part1_scan (fill 42 g) = some { value := 30, x := 21, y := 61 } := by
    exact_mod_cast r42
  exact ⟨⟨e18, by simp only [part1, e18, Option.map_some']⟩,
    ⟨e42, by simp only [part1, e42, Option.map_some']⟩⟩

/-- C12: after `fill(18)` (on any prior grid state) the part-2 scan records the
anchor `(90, 269)`, size 16, value 113; after `fill(42)` it records
`(232, 251)`, size 12, value 119. -/
theorem part2_fixtures (g : Grid) :
    (part2_scan (fill 18 g) = some { value := 113, x := 90, y := 269, size := 16 } ∧
      part2 (fill 18 g) = some ({ value := 113, x := 90, y := 269, size := 16 },
        print_square (fill 18 g) 90 269 16)) ∧
    (part2_scan (fill 42 g) = some { value := 119, x := 232, y := 251, size := 12 } ∧
      part2 (fill 42 g) = some ({ value := 119, x := 232, y := 251, size := 12 },
        print_square (fill 42 g) 232 251 12)) := by
  have h18 := (Bool.and_eq_true _ _ ▸ packed_check_seed18).2
  have h42 := (Bool.and_eq_true _ _ ▸ packed_check_seed42).2
  have a18 : Anchor2 90 269 16 := by unfold Anchor2; omega
  have a42 : Anchor2 232 251 12 := by unfold Anchor2; omega
  have v18 : squareVal (fill 18 g) 90 269 16 = 113 := by
    rw [squareVal_fill_eq 18 g a18]; exact fixture_sums.2.2.1
  have v42 : squareVal (fill 42 g) 232 251 12 = 119 := by
    rw [squareVal_fill_eq 42 g a42]; exact fixture_sums.2.2.2
  have r18 := part2_scan_of_check 18 113 90 269 16 (by decide) g (by decide) (by decide)
    (by decide) (by decide) (by decide) (by decide) (by decide) h18 (by exact_mod_cast v18)
  have r42 := part2_scan_of_check 42 119 232 251 12 (by decide) g (by decide) (by decide)
    (by decide) (by decide) (by decide) (by decide) (by decide) h42 (by exact_mod_cast v42)
  have e18 : part2_scan (fill 18 g)
      = some { value := 113, x := 90, y := 269, size := 16 } := by
    exact_mod_cast r18
  have e42 : part2_scan (fill 42 g)
      = some { value := 119, x := 232, y := 251, size := 12 } := by
    exact_mod_cast r42
  exact ⟨⟨e18, by simp only [part2, e18, Option.map_some']⟩,
    ⟨e42, by simp only [part2, e42, Option.map_some']⟩⟩

end Day11
